import Mathlib

/-! Verification of ueberzugpp: image normalisation, canvas renderer and overlay window.

A shallow embedding of

* `src/image/opencv.cpp`   (`OpencvImage`: rotate, resize, recentre, colourspace conversion),
* `src/canvas/chafa.cpp`   (`Chafa`: constructor, `draw`, destructor),
* `src/canvas/x11/window.cpp` (`Window`: `show`, `hide`, `toggle`),

together with the parts of OpenCV the code calls (`cv::cvtColor`, `cv::rotate`,
`cv::flip`, `cv::transpose`, `cv::resize`) and of IEEE-754 double arithmetic
(`static_cast<double>`, `/`, `std::ceil`, `std::floor`).

Conventions.
* `int` values are integers; the image width and height are `int`, hence below `2 ^ 31`.
* The anchor fields `Dimensions::x` and `Dimensions::y` are integers of a type declared
  outside these sources; the type is a parameter (`Env.coord_type`), and a store of a
  double into it is defined only for values of the type.
* A `double` is the rational it denotes; every arithmetic operation is followed by
  `fl64`, rounding to nearest with ties to even on a 53-bit significand.  The exponent
  range is not modelled: all values that occur are quotients and differences of machine
  integers.
* Calls into the terminal, chafa and xcb are recorded, in program order, in an explicit
  list of effects.
* A thrown `cv::Exception` is `none`.
-/

namespace Ueberzugpp

/-! ## Double-precision arithmetic -/

/-- Round a rational to the nearest integer, ties to the even neighbour. -/
def roundHalfEven (q : ℚ) : ℤ :=
  if q - ⌊q⌋ < 1 / 2 then ⌊q⌋
  else if 1 / 2 < q - ⌊q⌋ then ⌊q⌋ + 1
  else if ⌊q⌋ % 2 = 0 then ⌊q⌋ else ⌊q⌋ + 1

/-- The double nearest to `q` (binary64, round to nearest even): with
`2 ^ e ≤ |q| < 2 ^ (e + 1)` the unit in the last place is `2 ^ (e - 52)`. -/
def fl64 (q : ℚ) : ℚ :=
  if q = 0 then 0
  else (roundHalfEven (q / 2 ^ (Int.log 2 |q| - 52)) : ℚ) * 2 ^ (Int.log 2 |q| - 52)

/-- Conversion `static_cast<double>(n)` of an integer. -/
def int_to_double (n : ℤ) : ℚ := fl64 (n : ℚ)

/-- Implicit conversion of a `double` to an integer type: truncation toward zero. -/
def double_to_int (q : ℚ) : ℤ := if 0 ≤ q then ⌊q⌋ else ⌈q⌉

/-- An integer type, given by its least and its greatest value. -/
structure IntegerType where
  min : Int
  max : Int
  deriving DecidableEq, Repr

/-- Conversion of a `double` to the integer type `T`: truncation toward zero when the
truncated value is a value of `T`.  Otherwise the behaviour is undefined in C++; `undef`
stands for whatever gets stored then. -/
def double_to_integral (T : IntegerType) (undef : ℚ → ℤ) (q : ℚ) : ℤ :=
  if T.min ≤ double_to_int q ∧ double_to_int q ≤ T.max then double_to_int q else undef q

/-- Double division `a / b`. -/
def ddiv (a b : ℚ) : ℚ := fl64 (a / b)

/-- Double subtraction `a - b`. -/
def dsub (a b : ℚ) : ℚ := fl64 (a - b)

/-- Result of `std::ceil` (a double holding an integer). -/
def std_ceil (q : ℚ) : ℚ := ((⌈q⌉ : ℤ) : ℚ)

/-- Result of `std::floor` (a double holding an integer). -/
def std_floor (q : ℚ) : ℚ := ((⌊q⌋ : ℤ) : ℚ)

/-! ## OpenCV matrices -/

/-- Sample depths accepted by `cv::cvtColor` for the conversions used here. -/
inductive Depth
  | CV_8U
  | CV_16U
  | CV_32F
  deriving DecidableEq, Repr

/-- Bytes per channel sample (`Mat::elemSize1`). -/
def Depth.elemSize1 : Depth → Nat
  | .CV_8U => 1
  | .CV_16U => 2
  | .CV_32F => 4

/-- The alpha sample written by conversions that add an alpha channel: the raw sample
of `255`, `65535` and `1.0f` (full coverage). -/
def Depth.alphaMax : Depth → Nat
  | .CV_8U => 255
  | .CV_16U => 65535
  | .CV_32F => 0x3F800000

/-- A `cv::Mat`: header (`rows`, `cols`, depth, channel count) and pixel data, a list of
rows, each a list of pixels, each a list of raw channel samples. -/
structure Mat where
  rows : Nat
  cols : Nat
  depth : Depth
  chans : Nat
  data : List (List (List Nat))
  deriving DecidableEq, Repr

/-- Header and data agree. -/
def Mat.wf (m : Mat) : Prop :=
  m.data.length = m.rows ∧
    ∀ row ∈ m.data, row.length = m.cols ∧ ∀ px ∈ row, px.length = m.chans

/-- Pixel at row `r`, column `c`. -/
def Mat.pixel (m : Mat) (r c : Nat) : Option (List Nat) :=
  match m.data[r]? with
  | some row => row[c]?
  | none => none

/-- Method `Mat::empty`. -/
def Mat.empty (m : Mat) : Bool := m.rows == 0 || m.cols == 0

/-- Method `Mat::total`: number of pixels. -/
def Mat.total (m : Mat) : Nat := m.rows * m.cols

/-- Method `Mat::elemSize`: bytes per pixel. -/
def Mat.elemSize (m : Mat) : Nat := m.chans * m.depth.elemSize1

/-- Method `Mat::channels`. -/
def Mat.channels (m : Mat) : Nat := m.chans

/-- The colour conversion codes used by `process_image`. -/
inductive ColorConversionCodes
  | COLOR_BGR2BGRA
  | COLOR_BGRA2RGB
  | COLOR_BGR2RGB
  | COLOR_BGRA2RGBA
  | COLOR_GRAY2BGRA
  deriving DecidableEq, Repr

/-- Per-pixel body of OpenCV's `RGB2RGB` functor: reorder blue and red when `swapb`,
and with four destination channels keep the alpha of a 4-channel source or add a
maximal one. -/
def RGB2RGB (srccn dstcn : Nat) (swapb : Bool) (alpha : Nat) (px : List Nat) : List Nat :=
  let t0 := if swapb then px.getD 2 0 else px.getD 0 0
  let t1 := px.getD 1 0
  let t2 := if swapb then px.getD 0 0 else px.getD 2 0
  if dstcn = 4 then [t0, t1, t2, if srccn = 4 then px.getD 3 0 else alpha]
  else [t0, t1, t2]

/-- Per-pixel body of OpenCV's `Gray2RGB` functor with four destination channels. -/
def Gray2RGB (alpha : Nat) (px : List Nat) : List Nat :=
  [px.getD 0 0, px.getD 0 0, px.getD 0 0, alpha]

/-- Apply a per-pixel function and set the channel count of the header. -/
def Mat.mapPixels (f : List Nat → List Nat) (dcn : Nat) (m : Mat) : Mat :=
  { m with chans := dcn, data := m.data.map (fun row => row.map f) }

/-- OpenCV's `cvtColorBGR2BGR`: the source must have 3 or 4 channels. -/
def cvtColorBGR2BGR (src : Mat) (dcn : Nat) (swapb : Bool) : Option Mat :=
  if src.chans = 3 ∨ src.chans = 4 then
    some (src.mapPixels (RGB2RGB src.chans dcn swapb src.depth.alphaMax) dcn)
  else none

/-- OpenCV's `cvtColorGray2BGR`: the source must have 1 channel. -/
def cvtColorGray2BGR (src : Mat) : Option Mat :=
  if src.chans = 1 then some (src.mapPixels (Gray2RGB src.depth.alphaMax) 4)
  else none

/-- The call `cv::cvtColor(src, dst, code)`: asserts a non-empty source, then dispatches on
the code, which fixes the destination channel count and whether blue and red are
swapped. -/
def cvtColor (src : Mat) (code : ColorConversionCodes) : Option Mat :=
  if src.empty then none
  else
    match code with
    | .COLOR_BGR2BGRA => cvtColorBGR2BGR src 4 false
    | .COLOR_BGRA2RGB => cvtColorBGR2BGR src 3 true
    | .COLOR_BGR2RGB => cvtColorBGR2BGR src 3 true
    | .COLOR_BGRA2RGBA => cvtColorBGR2BGR src 4 true
    | .COLOR_GRAY2BGRA => cvtColorGray2BGR src

/-- The call `cv::flip(src, dst, flipCode)`: `0` reverses the order of the rows, a
positive code reverses every row, a negative code does both. -/
def cv_flip (src : Mat) (flipCode : Int) : Mat :=
  if flipCode = 0 then { src with data := src.data.reverse }
  else if 0 < flipCode then { src with data := src.data.map List.reverse }
  else { src with data := (src.data.map List.reverse).reverse }

/-- The call `cv::transpose(src, dst)`. -/
def cv_transpose (src : Mat) : Mat :=
  { src with
    rows := src.cols
    cols := src.rows
    data := (List.range src.cols).map (fun c => src.data.map (fun row => row.getD c [])) }

/-- Rotation codes of `cv::rotate`. -/
inductive RotateFlags
  | ROTATE_90_CLOCKWISE
  | ROTATE_180
  | ROTATE_90_COUNTERCLOCKWISE
  deriving DecidableEq, Repr

/-- The call `cv::rotate(src, dst, code)`, as OpenCV implements it with `transpose` and
`flip`. -/
def cv_rotate (src : Mat) (code : RotateFlags) : Mat :=
  match code with
  | .ROTATE_90_CLOCKWISE => cv_flip (cv_transpose src) 1
  | .ROTATE_180 => cv_flip src (-1)
  | .ROTATE_90_COUNTERCLOCKWISE => cv_flip (cv_transpose src) 0

/-- The call `cv::resize(src, dst, Size(width, height), 0, 0, INTER_AREA)`.  OpenCV
asserts a non-empty source and, the scale factors being zero, a non-empty destination
size (`width > 0` and `height > 0`).  The destination has the requested size and the
source's depth and channels; its pixels come from the area interpolation `inter_area`
(source, destination width and height, row, column), which is left abstract. -/
def cv_resize (inter_area : Mat → Nat → Nat → Nat → Nat → List Nat) (src : Mat)
    (width height : Int) : Option Mat :=
  if src.empty ∨ width ≤ 0 ∨ height ≤ 0 then none
  else
    some { src with
      rows := height.toNat
      cols := width.toNat
      data := (List.range height.toNat).map (fun r =>
        (List.range width.toNat).map (fun c =>
          inter_area src width.toNat height.toNat r c)) }

/-! ## `OpencvImage` -/

/-- The font cell size in pixels (fields of `Terminal`, declared in `terminal.hpp`). -/
structure Terminal where
  font_width : Nat
  font_height : Nat
  deriving DecidableEq, Repr

/-- The fields of `Dimensions` (declared in `dimensions.hpp`) used here. -/
structure Dimensions where
  terminal : Terminal
  x : Int
  y : Int
  scaler : String
  deriving DecidableEq, Repr

/-- The fields of `Flags` (declared in `flags.hpp`) used here. -/
structure Flags where
  output : String
  no_cache : Bool
  origin_center : Bool
  use_opengl : Bool
  deriving DecidableEq, Repr

/-- What the image code takes from outside `opencv.cpp`: the scaler policy
`Image::get_new_sizes` (maximum width, maximum height, scaler, current width and
height), the interpolation of `cv::resize`, whether an OpenCL context exists, the
build option `ENABLE_OPENGL`, the integer type of the anchor fields `Dimensions::x` and
`Dimensions::y` (declared in `dimensions.hpp`), and what a conversion of a double outside
that type stores (undefined behaviour). -/
structure Env where
  get_new_sizes : Int → Int → String → Int → Int → Int × Int
  inter_area : Mat → Nat → Nat → Nat → Nat → List Nat
  opencl_available : Bool
  ENABLE_OPENGL : Bool
  coord_type : IntegerType
  undefined_conversion : ℚ → ℤ

/-- The state of an `OpencvImage`. -/
structure OpencvImage where
  image : Mat
  dims : Dimensions
  max_width : Int
  max_height : Int
  in_cache : Bool
  flags : Flags
  _size : Nat
  deriving DecidableEq, Repr

/-- Method `OpencvImage::width`. -/
def OpencvImage.width (s : OpencvImage) : Int := s.image.cols

/-- Method `OpencvImage::height`. -/
def OpencvImage.height (s : OpencvImage) : Int := s.image.rows

/-- Method `OpencvImage::size`. -/
def OpencvImage.size (s : OpencvImage) : Nat := s._size

/-- Method `OpencvImage::channels`. -/
def OpencvImage.channels (s : OpencvImage) : Nat := s.image.channels

/-- Method `OpencvImage::rotate_image`; `rotation` is the result of
`util::read_exif_rotation`. -/
def rotate_image (rotation : Option Nat) (s : OpencvImage) : OpencvImage :=
  match rotation with
  | none => s
  | some value =>
    if value = 3 then { s with image := cv_rotate s.image .ROTATE_180 }
    else if value = 6 then { s with image := cv_rotate s.image .ROTATE_90_CLOCKWISE }
    else if value = 8 then { s with image := cv_rotate s.image .ROTATE_90_COUNTERCLOCKWISE }
    else s

/-- Method `OpencvImage::resize_image_helper`: the resize itself.  The cache write that follows
(`cv::imwrite`, skipped with `no_cache`, its `cv::Exception` swallowed) touches the file
system only. -/
def resize_image_helper (env : Env) (mat : Mat) (new_width new_height : Int) : Option Mat :=
  cv_resize env.inter_area mat new_width new_height

/-- Method `OpencvImage::resize_image`. -/
def resize_image (env : Env) (s : OpencvImage) : Option OpencvImage :=
  if s.in_cache then some s
  else
    let new_sizes := env.get_new_sizes s.max_width s.max_height s.dims.scaler s.width s.height
    let new_width := new_sizes.1
    let new_height := new_sizes.2
    if new_width ≤ 0 ∧ new_height ≤ 0 then
      if s.flags.output = "wayland" then
        let curw := s.width
        let curh := s.height
        if curw.tmod 2 ≠ 0 ∨ curh.tmod 2 ≠ 0 then
          (resize_image_helper env s.image (curw - curw.tmod 2) (curh - curh.tmod 2)).map
            (fun m => { s with image := m })
        else some s
      else some s
    else if env.opencl_available then
      -- image.copyTo(uimage); resize uimage; uimage.copyTo(image)
      (resize_image_helper env s.image new_width new_height).map
        (fun m => { s with image := m })
    else
      (resize_image_helper env s.image new_width new_height).map
        (fun m => { s with image := m })

/-- Lines 169-174 of `process_image`: the anchor shift of origin-centred placement.
The compound assignment `dims->x -= d` computes `dims->x - d` in double precision and
converts the result back to the integer type of the field. -/
def recenter (env : Env) (s : OpencvImage) : OpencvImage :=
  if s.flags.origin_center then
    let img_width := ddiv (int_to_double s.width) (int_to_double s.dims.terminal.font_width)
    let img_height := ddiv (int_to_double s.height) (int_to_double s.dims.terminal.font_height)
    { s with
      dims := { s.dims with
        x := double_to_integral env.coord_type env.undefined_conversion
          (dsub (int_to_double s.dims.x) (std_floor (ddiv img_width 2)))
        y := double_to_integral env.coord_type env.undefined_conversion
          (dsub (int_to_double s.dims.y) (std_floor (ddiv img_height 2))) } }
  else s

/-- The set `bgra_trifecta` of `process_image`. -/
def bgra_trifecta : List String := ["x11", "chafa", "wayland"]

/-- Lines 184-204 of `process_image`: the colourspace conversion for backend `output`. -/
def convert_colorspace (output : String) (image : Mat) : Option Mat := do
  let image ← if image.channels = 1 then cvtColor image .COLOR_GRAY2BGRA else some image
  if output ∈ bgra_trifecta then
    if image.channels = 3 then cvtColor image .COLOR_BGR2BGRA else some image
  else if output = "kitty" then
    if image.channels = 4 then cvtColor image .COLOR_BGRA2RGBA
    else cvtColor image .COLOR_BGR2RGB
  else if output = "sixel" then
    if image.channels = 4 then cvtColor image .COLOR_BGRA2RGB
    else cvtColor image .COLOR_BGR2RGB
  else some image

/-- Method `OpencvImage::process_image`. -/
def process_image (env : Env) (s : OpencvImage) : Option OpencvImage := do
  let s ← resize_image env s
  let s := recenter env s
  let s := if env.ENABLE_OPENGL && s.flags.use_opengl then
      { s with image := cv_flip s.image 0 }
    else s
  let image ← convert_colorspace s.flags.output s.image
  some { s with image := image, _size := image.total * image.elemSize }

/-- The constructor `OpencvImage::OpencvImage`: `decoded` is the result of `cv::imread`
and `rotation` that of `util::read_exif_rotation`; an empty image is a load error. -/
def OpencvImage.new (env : Env) (decoded : Mat) (rotation : Option Nat) (dims : Dimensions)
    (max_width max_height : Int) (in_cache : Bool) (flags : Flags) : Option OpencvImage :=
  if decoded.empty then none
  else
    process_image env (rotate_image rotation
      { image := decoded, dims := dims, max_width := max_width, max_height := max_height,
        in_cache := in_cache, flags := flags, _size := 0 })

/-! ## The canvas renderer `Chafa` -/

/-- What the canvas renderer does to the outside world: calls into chafa and glib, the
shared output lock (`std::scoped_lock` on `stdout_mutex`), and terminal output. -/
inductive Effect
  | chafa_canvas_new
  | chafa_canvas_draw_all_pixels (width height rowstride : Int)
  | chafa_canvas_print_rows
  | chafa_canvas_print
  | g_free
  | lock
  | unlock
  | save_cursor_position
  | move_cursor (row col : Int)
  | write (line : String)
  | flush
  | restore_cursor_position
  | clear_terminal_area (x y width height : Int)
  | chafa_canvas_unref
  | chafa_canvas_config_unref
  | chafa_symbol_map_unref
  | chafa_term_info_unref
  deriving DecidableEq, Repr

/-- The terminal operations among the effects: cursor control and output. -/
def Effect.isTerminalOp : Effect → Bool
  | .save_cursor_position => true
  | .move_cursor _ _ => true
  | .write _ => true
  | .flush => true
  | .restore_cursor_position => true
  | .clear_terminal_area _ _ _ _ => true
  | _ => false

/-- The release of a backend resource. -/
def Effect.isRelease : Effect → Bool
  | .chafa_canvas_unref => true
  | .chafa_canvas_config_unref => true
  | .chafa_symbol_map_unref => true
  | .chafa_term_info_unref => true
  | _ => false

/-- The state of a `Chafa` renderer: the image, the anchor, the cell grid, the geometry
set on the canvas configuration and the number of canvases created by `draw`. -/
structure Chafa where
  image : OpencvImage
  x : Int
  y : Int
  horizontal_cells : Int
  vertical_cells : Int
  config_geometry : Int × Int
  canvases : Nat
  deriving DecidableEq, Repr

/-- The constructor `Chafa::Chafa`. -/
def Chafa.new (image : OpencvImage) : Chafa :=
  let dims := image.dims
  let x := dims.x + 1
  let y := dims.y + 1
  let horizontal_cells := double_to_int (std_ceil
    (ddiv (int_to_double image.width) (int_to_double dims.terminal.font_width)))
  let vertical_cells := double_to_int (std_ceil
    (ddiv (int_to_double image.height) (int_to_double dims.terminal.font_height)))
  { image := image, x := x, y := y, horizontal_cells := horizontal_cells,
    vertical_cells := vertical_cells,
    config_geometry := (horizontal_cells, vertical_cells), canvases := 0 }

/-- The row loop of `draw` with chafa 1.14:
`for (int i = 0; i < lines_length; ++i)`, moving to `(ycoord++, x)` and writing
`lines[i]`.  `fuel` bounds the iterations. -/
def draw_rows_loop (lines : List String) (x : Int) : Nat → Nat → Int → List Effect
  | 0, _, _ => []
  | fuel + 1, i, ycoord =>
    if i < lines.length then
      Effect.move_cursor ycoord x :: Effect.write (lines.getD i "") ::
        draw_rows_loop lines x fuel (i + 1) (ycoord + 1)
    else []

/-- The row loop of `draw` before chafa 1.14: `ranges::for_each` over the lines. -/
def draw_rows_for_each (x : Int) : List String → Int → List Effect
  | [], _ => []
  | line :: rest, ycoord =>
    Effect.move_cursor ycoord x :: Effect.write line ::
      draw_rows_for_each x rest (ycoord + 1)

/-- Method `Chafa::draw`.  `lines` are the rows rendered by chafa for the canvas
(`chafa_canvas_print_rows`, or `chafa_canvas_print` split at newlines), and
`CHAFA_VERSION_1_14` selects the build.  Returns the new state and the effects in program
order; the scoped lock is released when the function returns. -/
def Chafa.draw (CHAFA_VERSION_1_14 : Bool) (lines : List String) (c : Chafa) :
    Chafa × List Effect :=
  let c1 := { c with canvases := c.canvases + 1 }
  let pixels := [Effect.chafa_canvas_new,
    Effect.chafa_canvas_draw_all_pixels c.image.width c.image.height (c.image.width * 4)]
  if CHAFA_VERSION_1_14 then
    (c1, pixels ++ [Effect.chafa_canvas_print_rows, Effect.lock, Effect.save_cursor_position]
      ++ draw_rows_loop lines c.x lines.length 0 c.y
      ++ [Effect.g_free, Effect.flush, Effect.restore_cursor_position, Effect.unlock])
  else
    (c1, pixels ++ [Effect.chafa_canvas_print, Effect.lock, Effect.save_cursor_position]
      ++ draw_rows_for_each c.x lines c.y
      ++ [Effect.flush, Effect.restore_cursor_position, Effect.unlock])

/-- The destructor `Chafa::~Chafa`: the effects in program order. -/
def Chafa.destroy (c : Chafa) : List Effect :=
  [Effect.chafa_canvas_unref, Effect.chafa_canvas_config_unref,
    Effect.chafa_symbol_map_unref, Effect.chafa_term_info_unref,
    Effect.lock,
    Effect.clear_terminal_area c.x c.y c.horizontal_cells c.vertical_cells,
    Effect.unlock]

/-- The effects of a trace that are issued while the lock is held. -/
def heldUnderLock : Bool → List Effect → List Effect
  | _, [] => []
  | _, Effect.lock :: rest => heldUnderLock true rest
  | _, Effect.unlock :: rest => heldUnderLock false rest
  | held, e :: rest => if held then e :: heldUnderLock held rest else heldUnderLock held rest

/-! ## The overlay window `Window` -/

/-- Requests sent on the xcb connection. -/
inductive XcbRequest
  | map_window (window : Nat)
  | unmap_window (window : Nat)
  | flush
  deriving DecidableEq, Repr

/-- The state of a `Window` as far as visibility goes: the window id, the flag `visible`
and the requests sent so far on the (shared) connection, oldest first. -/
structure Window where
  window : Nat
  visible : Bool
  connection : List XcbRequest
  deriving DecidableEq, Repr

/-- Method `Window::toggle`. -/
def Window.toggle (w : Window) : Window :=
  let request := if w.visible then XcbRequest.unmap_window w.window
    else XcbRequest.map_window w.window
  { w with visible := !w.visible, connection := w.connection ++ [request, XcbRequest.flush] }

/-- Method `Window::show`. -/
def Window.show (w : Window) : Window :=
  if w.visible then w
  else
    { w with
      visible := true
      connection := w.connection ++ [XcbRequest.map_window w.window, XcbRequest.flush] }

/-- Method `Window::hide`. -/
def Window.hide (w : Window) : Window :=
  if !w.visible then w
  else
    { w with
      visible := false
      connection := w.connection ++ [XcbRequest.unmap_window w.window, XcbRequest.flush] }

/-- The map and unmap requests in a log. -/
def mapRequests (log : List XcbRequest) : List XcbRequest :=
  log.filter (fun r => decide (r ≠ XcbRequest.flush))

/-- The image handed to the colourspace conversion by `process_image`: flipped in an
OpenGL build with `use_opengl`. -/
def flipped (env : Env) (s : OpencvImage) : Mat :=
  if env.ENABLE_OPENGL && s.flags.use_opengl then cv_flip s.image 0 else s.image

instance Mat.decidableWf (m : Mat) : Decidable m.wf := by
  unfold Mat.wf
  infer_instance

/-- The erase of a cell rectangle. -/
def Effect.isErase : Effect → Bool
  | .clear_terminal_area _ _ _ _ => true
  | _ => false

/-- No backend resource is released before the first erase of a trace. -/
def eraseBeforeRelease (tr : List Effect) : Bool :=
  (tr.takeWhile (fun e => !e.isErase)).all (fun e => !e.isRelease)

/-! ## Concrete inputs -/

/-- Collaborators under which the scaler policy asks for no resize; interpolation by
nearest source pixel; anchor fields of type `int`, an out-of-range conversion storing
the least `int`. -/
def env_noresize : Env :=
  { get_new_sizes := fun _ _ _ _ _ => (0, 0)
    inter_area := fun src width height r c =>
      (src.pixel (r * src.rows / height) (c * src.cols / width)).getD []
    opencl_available := false
    ENABLE_OPENGL := false
    coord_type := { min := -2147483648, max := 2147483647 }
    undefined_conversion := fun _ => -2147483648 }

/-- A 100 x 50 image with three 8-bit channels for output `x11`, font cell 8 x 16, taken
from the cache (no resize), anchored at cell (10, 5). -/
def sample_x11 : OpencvImage :=
  { image := { rows := 50, cols := 100, depth := .CV_8U, chans := 3,
               data := List.replicate 50 (List.replicate 100 [0, 0, 0]) }
    dims := { terminal := { font_width := 8, font_height := 16 }, x := 10, y := 5,
              scaler := "fit_contain" }
    max_width := 0
    max_height := 0
    in_cache := true
    flags := { output := "x11", no_cache := true, origin_center := false, use_opengl := false }
    _size := 0 }

/-- A single BGR pixel. -/
def pixel_bgr : Mat :=
  { rows := 1, cols := 1, depth := .CV_8U, chans := 3, data := [[[1, 2, 3]]] }

/-- A single gray pixel. -/
def pixel_gray : Mat :=
  { rows := 1, cols := 1, depth := .CV_8U, chans := 1, data := [[[7]]] }

/-- A single BGRA pixel. -/
def pixel_bgra : Mat :=
  { rows := 1, cols := 1, depth := .CV_8U, chans := 4, data := [[[1, 2, 3, 255]]] }

/-- A 12 x 24 BGRA image for output `x11` with origin-centred placement, font cell
8 x 16, anchored at cell (10, 5), taken from the cache. -/
def sample_centered : OpencvImage :=
  { image := { rows := 24, cols := 12, depth := .CV_8U, chans := 4,
               data := List.replicate 24 (List.replicate 12 [0, 0, 0, 255]) }
    dims := { terminal := { font_width := 8, font_height := 16 }, x := 10, y := 5,
              scaler := "fit_contain" }
    max_width := 0
    max_height := 0
    in_cache := true
    flags := { output := "x11", no_cache := true, origin_center := true, use_opengl := false }
    _size := 0 }

/-- A 100 x 50 BGRA image for output `kitty` with origin-centred placement, font cell
8 x 16, anchored at cell (10, 5), taken from the cache. -/
def sample_centered_100x50 : OpencvImage :=
  { image := { rows := 50, cols := 100, depth := .CV_8U, chans := 4,
               data := List.replicate 50 (List.replicate 100 [0, 0, 0, 255]) }
    dims := { terminal := { font_width := 8, font_height := 16 }, x := 10, y := 5,
              scaler := "fit_contain" }
    max_width := 0
    max_height := 0
    in_cache := true
    flags := { output := "kitty", no_cache := true, origin_center := true, use_opengl := false }
    _size := 0 }

/-- A gray image 3 wide and 2 high with distinct pixels. -/
def sample_3x2 : OpencvImage :=
  { image := { rows := 2, cols := 3, depth := .CV_8U, chans := 1,
               data := [[[1], [2], [3]], [[4], [5], [6]]] }
    dims := { terminal := { font_width := 8, font_height := 16 }, x := 0, y := 0,
              scaler := "fit_contain" }
    max_width := 0
    max_height := 0
    in_cache := true
    flags := { output := "x11", no_cache := true, origin_center := false, use_opengl := false }
    _size := 0 }

/-- A 1 x 1 BGRA image for output `wayland`, not from the cache. -/
def sample_wayland_1x1 : OpencvImage :=
  { image := { rows := 1, cols := 1, depth := .CV_8U, chans := 4, data := [[[0, 0, 0, 255]]] }
    dims := { terminal := { font_width := 8, font_height := 16 }, x := 0, y := 0,
              scaler := "fit_contain" }
    max_width := 0
    max_height := 0
    in_cache := false
    flags := { output := "wayland", no_cache := true, origin_center := false,
               use_opengl := false }
    _size := 0 }

/-- A hidden window with an empty request log. -/
def sample_hidden : Window := { window := 7, visible := false, connection := [] }

/-- A visible window whose log holds the map request of its construction. -/
def sample_visible : Window :=
  { window := 7, visible := true, connection := [XcbRequest.map_window 7, XcbRequest.flush] }

/-! ## Lemmas on double rounding -/

theorem roundHalfEven_intCast (n : ℤ) : roundHalfEven (n : ℚ) = n := by
  simp [roundHalfEven]

theorem roundHalfEven_err (q : ℚ) : |(roundHalfEven q : ℚ) - q| ≤ 1 / 2 := by
  have h1 := Int.floor_le q
  have h2 := Int.lt_floor_add_one q
  unfold roundHalfEven
  split_ifs with a b c <;> push_cast <;> rw [abs_le] <;> constructor <;> linarith

theorem fl64_err (q : ℚ) : |fl64 q - q| ≤ |q| * 2 ^ (-53 : ℤ) := by
  unfold fl64
  split_ifs with h0
  · simp [h0]
  · have hq : 0 < |q| := abs_pos.mpr h0
    set e := Int.log 2 |q| with he
    have hle : (2 : ℚ) ^ e ≤ |q| := by
      have := Int.zpow_log_le_self (b := 2) (by norm_num) hq
      simpa using this
    have hu : (0 : ℚ) < 2 ^ (e - 52) := by positivity
    have key : (roundHalfEven (q / 2 ^ (e - 52)) : ℚ) * 2 ^ (e - 52) - q
        = ((roundHalfEven (q / 2 ^ (e - 52)) : ℚ) - q / 2 ^ (e - 52)) * 2 ^ (e - 52) := by
      field_simp
    rw [key, abs_mul, abs_of_pos hu]
    have hr := roundHalfEven_err (q / 2 ^ (e - 52))
    have h53 : (2 : ℚ) ^ (e - 52) = 2 ^ e * 2 ^ (-53 : ℤ) * 2 := by
      rw [show e - 52 = e + (-53) + 1 by ring, zpow_add₀ (by norm_num), zpow_add₀ (by norm_num)]
      simp
    have hp : (0:ℚ) < 2 ^ (-53 : ℤ) := by positivity
    calc |(roundHalfEven (q / 2 ^ (e - 52)) : ℚ) - q / 2 ^ (e - 52)| * 2 ^ (e - 52)
        ≤ 1 / 2 * 2 ^ (e - 52) := by gcongr
      _ = 2 ^ e * 2 ^ (-53 : ℤ) := by rw [h53]; ring
      _ ≤ |q| * 2 ^ (-53 : ℤ) := by gcongr

theorem fl64_rep_lt (M k : ℤ) (hM : |M| < 2 ^ 53) : fl64 ((M : ℚ) * 2 ^ k) = (M : ℚ) * 2 ^ k := by
  unfold fl64
  have h2k : (0 : ℚ) < 2 ^ k := by positivity
  split_ifs with h0
  · exact h0.symm
  · have hq : 0 < |(M : ℚ) * 2 ^ k| := abs_pos.mpr h0
    set e := Int.log 2 |(M : ℚ) * 2 ^ k| with he
    have hlt : e < 53 + k := by
      rw [he, ← Int.lt_zpow_iff_log_lt (by norm_num) hq]
      rw [abs_mul, abs_of_pos h2k, zpow_add₀ (by norm_num)]
      have : |(M : ℚ)| < 2 ^ 53 := by exact_mod_cast hM
      push_cast
      have h53 : ((2 : ℚ) ^ (53 : ℤ)) = 2 ^ 53 := by norm_cast
      rw [h53]
      gcongr
    obtain ⟨j, hj⟩ : ∃ j : ℕ, k - (e - 52) = j := ⟨(k - (e - 52)).toNat, by omega⟩
    have hdiv : (M : ℚ) * 2 ^ k / 2 ^ (e - 52) = ((M * 2 ^ j : ℤ) : ℚ) := by
      rw [mul_div_assoc, ← zpow_sub₀ (by norm_num), hj]
      push_cast
      simp
    rw [hdiv, roundHalfEven_intCast]
    push_cast
    rw [mul_assoc, ← zpow_natCast, ← zpow_add₀ (by norm_num), ← hj]
    congr 2
    ring

theorem fl64_rep (M k : ℤ) (hM : |M| ≤ 2 ^ 53) : fl64 ((M : ℚ) * 2 ^ k) = (M : ℚ) * 2 ^ k := by
  rcases lt_or_eq_of_le hM with h | h
  · exact fl64_rep_lt M k h
  · have hM2 : (M : ℚ) * 2 ^ k = ((M / 2 : ℤ) : ℚ) * 2 ^ (k + 1) := by
      have hd : M = M / 2 * 2 := by
        rcases abs_choice M with h' | h' <;> rw [h'] at h <;> omega
      rw [zpow_add₀ (by norm_num)]
      conv_lhs => rw [hd]
      push_cast
      ring
    rw [hM2]
    apply fl64_rep_lt
    rcases abs_choice M with h' | h' <;> rw [h'] at h <;> rw [abs_lt] <;> omega

theorem roundHalfEven_abs_le (y : ℚ) (B : ℤ) (hy : |y| < B) : |roundHalfEven y| ≤ B := by
  rw [abs_lt] at hy
  have h1 : -B ≤ ⌊y⌋ := by
    rw [Int.le_floor]; push_cast; linarith
  have h2 : ⌊y⌋ < B := by
    rw [Int.floor_lt]; linarith
  unfold roundHalfEven
  rw [abs_le]
  split_ifs <;> constructor <;> omega

theorem fl64_mantissa (q : ℚ) : ∃ M k : ℤ, |M| ≤ 2 ^ 53 ∧ fl64 q = (M : ℚ) * 2 ^ k := by
  by_cases h0 : q = 0
  · exact ⟨0, 0, by norm_num, by simp [fl64, h0]⟩
  · have hq : 0 < |q| := abs_pos.mpr h0
    refine ⟨roundHalfEven (q / 2 ^ (Int.log 2 |q| - 52)), Int.log 2 |q| - 52, ?_, by simp [fl64, h0]⟩
    apply roundHalfEven_abs_le
    have hu : (0 : ℚ) < 2 ^ (Int.log 2 |q| - 52) := by positivity
    rw [abs_div, abs_of_pos hu, div_lt_iff₀ hu]
    have := Int.lt_zpow_succ_log_self (b := 2) (by norm_num) |q|
    calc |q| < 2 ^ (Int.log 2 |q| + 1) := by simpa using this
      _ = ((2 ^ 53 : ℤ) : ℚ) * 2 ^ (Int.log 2 |q| - 52) := by
        have h53 : (((2 : ℤ) ^ 53 : ℤ) : ℚ) = (2 : ℚ) ^ (53 : ℤ) := by norm_cast
        rw [h53, ← zpow_add₀ (by norm_num)]
        congr 1
        ring

theorem fl64_half (q : ℚ) : fl64 (fl64 q / 2) = fl64 q / 2 := by
  obtain ⟨M, k, hM, hq⟩ := fl64_mantissa q
  have : fl64 q / 2 = (M : ℚ) * 2 ^ (k - 1) := by
    rw [hq, zpow_sub₀ (by norm_num)]
    simp
    ring
  rw [this]
  exact fl64_rep M _ hM

theorem fl64_intCast (n : ℤ) (hn : |n| ≤ 2 ^ 53) : fl64 (n : ℚ) = n := by
  have := fl64_rep n 0 hn
  simpa using this

theorem fl64_div_err (p d : ℕ) (hd : 1 ≤ d) (hp : p < 2 ^ 53) :
    |fl64 ((p : ℚ) / d) - (p : ℚ) / d| < 1 / d := by
  have hd0 : (0 : ℚ) < d := by exact_mod_cast hd
  by_cases hp0 : p = 0
  · subst hp0
    simp [fl64]
    omega
  · have hpos : (0 : ℚ) < p := by exact_mod_cast Nat.pos_of_ne_zero hp0
    have hx : (0 : ℚ) < (p : ℚ) / d := div_pos hpos hd0
    have h := fl64_err ((p : ℚ) / d)
    rw [abs_of_pos hx] at h
    have hp53 : (p : ℚ) * 2 ^ (-53 : ℤ) < 1 := by
      have : (p : ℚ) < 2 ^ 53 := by exact_mod_cast hp
      have e : (2 : ℚ) ^ (-53 : ℤ) = 1 / 2 ^ 53 := by
        rw [zpow_neg]; norm_cast; simp
      rw [e, mul_one_div, div_lt_one (by positivity)]
      exact this
    calc |fl64 ((p : ℚ) / d) - (p : ℚ) / d| ≤ (p : ℚ) / d * 2 ^ (-53 : ℤ) := h
      _ = (p : ℚ) * 2 ^ (-53 : ℤ) / d := by ring
      _ < 1 / d := by gcongr

theorem fl64_div_gt (p d : ℕ) (hd : 1 ≤ d) (hp : p < 2 ^ 53) (m : ℤ)
    (h : (m : ℚ) < (p : ℚ) / d) : (m : ℚ) < fl64 ((p : ℚ) / d) := by
  have hd0 : (0 : ℚ) < d := by exact_mod_cast hd
  have he := fl64_div_err p d hd hp
  rw [abs_lt] at he
  have h1 : m * (d : ℤ) + 1 ≤ p := by
    have : ((m * (d : ℤ) : ℤ) : ℚ) < ((p : ℤ) : ℚ) := by
      push_cast
      rwa [lt_div_iff₀ hd0] at h
    have := Int.cast_lt.mp this
    omega
  have h2 : (m : ℚ) + 1 / d ≤ (p : ℚ) / d := by
    rw [le_div_iff₀ hd0, add_mul, one_div, inv_mul_cancel₀ hd0.ne']
    exact_mod_cast h1
  linarith [he.1]

theorem fl64_div_lt (p d : ℕ) (hd : 1 ≤ d) (hp : p < 2 ^ 53) (m : ℤ)
    (h : (p : ℚ) / d < (m : ℚ)) : fl64 ((p : ℚ) / d) < (m : ℚ) := by
  have hd0 : (0 : ℚ) < d := by exact_mod_cast hd
  have he := fl64_div_err p d hd hp
  rw [abs_lt] at he
  have h1 : (p : ℤ) + 1 ≤ m * (d : ℤ) := by
    have : ((p : ℤ) : ℚ) < ((m * (d : ℤ) : ℤ) : ℚ) := by
      push_cast
      rwa [div_lt_iff₀ hd0] at h
    have := Int.cast_lt.mp this
    omega
  have h2 : (p : ℚ) / d + 1 / d ≤ (m : ℚ) := by
    rw [← add_div, div_le_iff₀ hd0]
    exact_mod_cast h1
  linarith [he.2]

theorem fl64_div_eq (p d : ℕ) (hd : 1 ≤ d) (hp : p < 2 ^ 53) (m : ℤ)
    (h : (p : ℚ) / d = (m : ℚ)) : fl64 ((p : ℚ) / d) = (m : ℚ) := by
  have hd0 : (0 : ℚ) < d := by exact_mod_cast hd
  rw [h]
  apply fl64_intCast
  have hm0 : (0 : ℚ) ≤ m := by rw [← h]; positivity
  have hmp : (m : ℚ) ≤ p := by
    rw [← h]
    apply div_le_self (by positivity)
    exact_mod_cast hd
  have hm0' : (0 : ℤ) ≤ m := by exact_mod_cast hm0
  have hmp' : m ≤ (p : ℤ) := by exact_mod_cast hmp
  rw [abs_of_nonneg hm0']
  omega

theorem ceil_div_nat (p d : ℕ) (hd : 1 ≤ d) :
    ⌈(p : ℚ) / d⌉ = (((p + d - 1) / d : ℕ) : ℤ) := by
  have hd0 : (0 : ℚ) < d := by exact_mod_cast hd
  have hdiv := Nat.div_add_mod (p + d - 1) d
  have hmod := Nat.mod_lt (p + d - 1) hd
  rw [Int.ceil_eq_iff]
  constructor
  · rw [lt_div_iff₀ hd0]
    have : ((((p + d - 1) / d : ℕ) : ℤ) - 1) * (d : ℤ) < (p : ℤ) := by
      generalize (p + d - 1) / d = c at hdiv
      have : (c : ℤ) * d = ((d * c : ℕ) : ℤ) := by push_cast; ring
      rw [sub_mul, this]
      omega
    exact_mod_cast this
  · rw [div_le_iff₀ hd0]
    have : p ≤ (p + d - 1) / d * d := by
      generalize (p + d - 1) / d = c at hdiv
      rw [mul_comm]
      omega
    exact_mod_cast this

theorem fl64_div_ceil (p d : ℕ) (hd : 1 ≤ d) (hp : p < 2 ^ 53) :
    ⌈fl64 ((p : ℚ) / d)⌉ = ⌈(p : ℚ) / d⌉ := by
  rw [Int.ceil_eq_iff]
  constructor
  · have : ((⌈(p : ℚ) / d⌉ - 1 : ℤ) : ℚ) < (p : ℚ) / d := by
      have := Int.ceil_lt_add_one ((p : ℚ) / d)
      push_cast; linarith
    have := fl64_div_gt p d hd hp _ this
    push_cast at this; exact this
  · rcases lt_or_eq_of_le (Int.le_ceil ((p : ℚ) / d)) with h | h
    · exact (fl64_div_lt p d hd hp _ h).le
    · exact (fl64_div_eq p d hd hp _ h).le

theorem fl64_div_half_floor (p d : ℕ) (hd : 1 ≤ d) (hp : p < 2 ^ 53) :
    ⌊fl64 (fl64 ((p : ℚ) / d) / 2)⌋ = ((p / (2 * d) : ℕ) : ℤ) := by
  have hd0 : (0 : ℚ) < d := by exact_mod_cast hd
  rw [fl64_half, Int.floor_eq_iff]
  have hdiv := Nat.div_add_mod p (2 * d)
  have hmod := Nat.mod_lt p (show 0 < 2 * d by omega)
  generalize p / (2 * d) = c at hdiv
  have hlow : ((2 * c : ℕ) : ℚ) ≤ (p : ℚ) / d := by
    rw [le_div_iff₀ hd0]
    have : 2 * c * d ≤ p := by
      have : 2 * d * c = 2 * c * d := by ring
      omega
    exact_mod_cast this
  have hhigh : (p : ℚ) / d < ((2 * c + 2 : ℕ) : ℚ) := by
    rw [div_lt_iff₀ hd0]
    have : p < (2 * c + 2) * d := by
      have : (2 * c + 2) * d = 2 * d * c + 2 * d := by ring
      omega
    exact_mod_cast this
  constructor
  · have : (((2 * c : ℕ) : ℤ) : ℚ) ≤ fl64 ((p : ℚ) / d) := by
      rcases lt_or_eq_of_le hlow with h | h
      · exact (fl64_div_gt p d hd hp _ (by exact_mod_cast h)).le
      · exact (fl64_div_eq p d hd hp _ (by exact_mod_cast h.symm)).ge
    push_cast at this ⊢
    linarith
  · have := fl64_div_lt p d hd hp ((2 * c + 2 : ℕ) : ℤ) (by exact_mod_cast hhigh)
    push_cast at this ⊢
    linarith

theorem int_to_double_nat (n : ℕ) (hn : n < 2 ^ 53) : int_to_double (n : ℤ) = (n : ℚ) := by
  unfold int_to_double
  have := fl64_intCast (n : ℤ) (by rw [abs_of_nonneg (by positivity)]; exact_mod_cast hn.le)
  simpa using this

theorem double_to_int_intCast (z : ℤ) : double_to_int (z : ℚ) = z := by
  unfold double_to_int
  split_ifs <;> simp

/-- The cell count computed by the constructor of the canvas renderer, for a pixel size
`p` and a font cell size `d`. -/
theorem cells_eq (p d : ℕ) (hd : 1 ≤ d) (hd53 : d < 2 ^ 53) (hp : p < 2 ^ 31) :
    double_to_int (std_ceil (ddiv (int_to_double (p : ℤ)) (int_to_double (d : ℤ))))
      = ⌈(p : ℚ) / d⌉ := by
  rw [int_to_double_nat p (by omega), int_to_double_nat d hd53]
  unfold std_ceil ddiv
  rw [double_to_int_intCast, fl64_div_ceil p d hd (by omega)]

theorem Mat.not_empty (m : Mat) (hr : 1 ≤ m.rows) (hc : 1 ≤ m.cols) :
    ¬ (m.rows = 0 ∨ m.cols = 0) := by
  omega

theorem kitty_not_trifecta : "kitty" ∉ bgra_trifecta := by decide

theorem sixel_not_trifecta : "sixel" ∉ bgra_trifecta := by decide

theorem sixel_ne_kitty : ¬ ("sixel" = "kitty") := by decide

theorem convert_colorspace_spec (output : String) (image : Mat)
    (hr : 1 ≤ image.rows) (hc : 1 ≤ image.cols)
    (hch : image.chans = 1 ∨ image.chans = 3 ∨ image.chans = 4) :
    ∃ out, convert_colorspace output image = some out ∧
      out.rows = image.rows ∧ out.cols = image.cols ∧ out.depth = image.depth ∧
      (output = "x11" ∨ output = "chafa" ∨ output = "wayland" → out.chans = 4) ∧
      (output = "kitty" → (image.chans = 3 → out.chans = 3) ∧ (image.chans = 4 → out.chans = 4)
        ∧ (image.chans = 1 → out.chans = 4)) ∧
      (output = "sixel" → out.chans = 3) := by
  have he := Mat.not_empty image hr hc
  by_cases h1 : output ∈ bgra_trifecta
  · have h2 : output ≠ "kitty" := by rintro rfl; exact kitty_not_trifecta h1
    have h3 : output ≠ "sixel" := by rintro rfl; exact sixel_not_trifecta h1
    rcases hch with h | h | h <;>
    simp [convert_colorspace, h1, h2, h3, h, cvtColor, Mat.empty, he, cvtColorGray2BGR,
      cvtColorBGR2BGR, Mat.mapPixels, Mat.channels, bind, Option.bind]
  · have h1' := h1
    simp only [bgra_trifecta, List.mem_cons, List.mem_singleton, List.not_mem_nil, or_false,
      not_or] at h1'
    obtain ⟨n1, n2, n3⟩ := h1'
    by_cases h2 : output = "kitty"
    · subst h2
      rcases hch with h | h | h <;>
      simp [convert_colorspace, kitty_not_trifecta, h, cvtColor, Mat.empty, he,
        cvtColorGray2BGR, cvtColorBGR2BGR, Mat.mapPixels, Mat.channels, bind, Option.bind]
    · by_cases h3 : output = "sixel"
      · subst h3
        rcases hch with h | h | h <;>
        simp [convert_colorspace, sixel_not_trifecta, sixel_ne_kitty, h, cvtColor, Mat.empty, he,
          cvtColorGray2BGR, cvtColorBGR2BGR, Mat.mapPixels, Mat.channels, bind, Option.bind]
      · rcases hch with h | h | h <;>
        simp [convert_colorspace, h1, h2, h3, h, cvtColor, Mat.empty, he, cvtColorGray2BGR,
          cvtColorBGR2BGR, Mat.mapPixels, Mat.channels, bind, Option.bind, n1, n2, n3]


theorem convert_trifecta_idem (output : String) (image out : Mat)
    (ho : output ∈ bgra_trifecta)
    (h : convert_colorspace output image = some out) :
    convert_colorspace output out = some out := by
  by_cases he : image.rows = 0 ∨ image.cols = 0
  · by_cases h1 : image.chans = 1
    · simp [convert_colorspace, ho, h1, cvtColor, Mat.empty, he, Mat.channels, bind, Option.bind] at h
    · by_cases h3 : image.chans = 3
      · simp [convert_colorspace, ho, h1, h3, cvtColor, Mat.empty, he, Mat.channels, bind, Option.bind] at h
      · simp [convert_colorspace, ho, h1, h3, cvtColor, Mat.empty, he, Mat.channels, bind, Option.bind] at h
        subst h
        simp [convert_colorspace, ho, h1, h3, cvtColor, Mat.empty, he, Mat.channels, bind, Option.bind]
  · by_cases h1 : image.chans = 1
    · simp [convert_colorspace, ho, h1, cvtColor, Mat.empty, he, Mat.channels, bind, Option.bind,
        cvtColorGray2BGR, cvtColorBGR2BGR, Mat.mapPixels] at h
      subst h
      simp [convert_colorspace, ho, h1, cvtColor, Mat.empty, he, Mat.channels, bind, Option.bind,
        cvtColorGray2BGR, cvtColorBGR2BGR, Mat.mapPixels]
    · by_cases h3 : image.chans = 3
      · simp [convert_colorspace, ho, h1, h3, cvtColor, Mat.empty, he, Mat.channels, bind, Option.bind,
          cvtColorGray2BGR, cvtColorBGR2BGR, Mat.mapPixels] at h
        subst h
        simp [convert_colorspace, ho, h1, cvtColor, Mat.empty, he, Mat.channels, bind, Option.bind,
          cvtColorGray2BGR, cvtColorBGR2BGR, Mat.mapPixels]
      · simp [convert_colorspace, ho, h1, h3, cvtColor, Mat.empty, he, Mat.channels, bind, Option.bind] at h
        subst h
        simp [convert_colorspace, ho, h1, h3, cvtColor, Mat.empty, he, Mat.channels, bind, Option.bind]


theorem recenter_image (env : Env) (s : OpencvImage) : (recenter env s).image = s.image := by
  unfold recenter
  split <;> rfl

theorem recenter_flags (env : Env) (s : OpencvImage) : (recenter env s).flags = s.flags := by
  unfold recenter
  split <;> rfl

theorem flipped_header (env : Env) (s : OpencvImage) :
    (flipped env s).rows = s.image.rows ∧ (flipped env s).cols = s.image.cols ∧
    (flipped env s).chans = s.image.chans ∧ (flipped env s).depth = s.image.depth := by
  unfold flipped cv_flip
  split <;> simp

theorem process_image_eq (env : Env) (s s1 : OpencvImage) (hres : resize_image env s = some s1) :
    process_image env s = (convert_colorspace s1.flags.output (flipped env s1)).map
      (fun image =>
        { recenter env s1 with image := image, _size := image.total * image.elemSize }) := by
  unfold process_image flipped
  rw [hres]
  simp only [bind, Option.bind, recenter_flags, recenter_image]
  by_cases hf : (env.ENABLE_OPENGL && s1.flags.use_opengl) = true
  · simp only [hf, if_true]
    cases convert_colorspace s1.flags.output (cv_flip s1.image 0) <;> rfl
  · simp only [hf, Bool.false_eq_true, if_false, recenter_flags, recenter_image]
    cases convert_colorspace s1.flags.output s1.image <;> rfl


theorem recenter_coord (T : IntegerType) (undef : ℚ → ℤ) (x : ℤ) (p d : ℕ) (hd : 1 ≤ d)
    (hd53 : d < 2 ^ 53) (hp : p < 2 ^ 31)
    (hT : -2 ^ 53 ≤ T.min ∧ T.max ≤ 2 ^ 53) (hx : T.min ≤ x ∧ x ≤ T.max)
    (hres : T.min ≤ x - ((p / (2 * d) : ℕ) : ℤ)) :
    double_to_integral T undef (dsub (int_to_double x)
        (std_floor (ddiv (ddiv (int_to_double (p : ℤ)) (int_to_double (d : ℤ))) 2)))
      = x - ((p / (2 * d) : ℕ) : ℤ) := by
  rw [int_to_double_nat p (by omega), int_to_double_nat d hd53]
  unfold double_to_integral std_floor ddiv dsub int_to_double
  rw [fl64_div_half_floor p d hd (by omega)]
  generalize p / (2 * d) = k at hres ⊢
  obtain ⟨hT1, hT2⟩ := hT
  obtain ⟨hx1, hx2⟩ := hx
  rw [fl64_intCast x (by rw [abs_le]; omega)]
  have e : (x : ℚ) - (((k : ℕ) : ℤ) : ℚ) = ((x - ((k : ℕ) : ℤ) : ℤ) : ℚ) := by
    push_cast; ring
  rw [e, fl64_intCast _ (by rw [abs_le]; omega), double_to_int_intCast]
  have hin : T.min ≤ x - (k : ℤ) ∧ x - (k : ℤ) ≤ T.max := by omega
  simp only [hin, and_self, if_true]

theorem recenter_spec (env : Env) (s : OpencvImage) (hoc : s.flags.origin_center = true)
    (hfw : 1 ≤ s.dims.terminal.font_width) (hfh : 1 ≤ s.dims.terminal.font_height)
    (hfw53 : s.dims.terminal.font_width < 2 ^ 53) (hfh53 : s.dims.terminal.font_height < 2 ^ 53)
    (hw31 : s.image.cols < 2 ^ 31) (hh31 : s.image.rows < 2 ^ 31)
    (hT : -2 ^ 53 ≤ env.coord_type.min ∧ env.coord_type.max ≤ 2 ^ 53)
    (hx : env.coord_type.min ≤ s.dims.x ∧ s.dims.x ≤ env.coord_type.max)
    (hy : env.coord_type.min ≤ s.dims.y ∧ s.dims.y ≤ env.coord_type.max)
    (hrx : env.coord_type.min
      ≤ s.dims.x - ((s.image.cols / (2 * s.dims.terminal.font_width) : ℕ) : ℤ))
    (hry : env.coord_type.min
      ≤ s.dims.y - ((s.image.rows / (2 * s.dims.terminal.font_height) : ℕ) : ℤ)) :
    (recenter env s).dims.x
        = s.dims.x - ((s.image.cols / (2 * s.dims.terminal.font_width) : ℕ) : ℤ) ∧
    (recenter env s).dims.y
        = s.dims.y - ((s.image.rows / (2 * s.dims.terminal.font_height) : ℕ) : ℤ) := by
  unfold recenter
  simp only [hoc, if_true]
  exact ⟨recenter_coord _ _ _ _ _ hfw hfw53 hw31 hT hx hrx,
    recenter_coord _ _ _ _ _ hfh hfh53 hh31 hT hy hry⟩

theorem draw_rows_loop_eq (lines : List String) (x : Int) :
    ∀ (fuel i : Nat) (ycoord : Int), lines.length ≤ fuel + i →
      draw_rows_loop lines x fuel i ycoord = draw_rows_for_each x (lines.drop i) ycoord := by
  intro fuel
  induction fuel with
  | zero =>
    intro i ycoord h
    have : lines.drop i = [] := List.drop_eq_nil_of_le (by omega)
    simp [draw_rows_loop, this, draw_rows_for_each]
  | succ n ih =>
    intro i ycoord h
    unfold draw_rows_loop
    by_cases hi : i < lines.length
    · simp only [hi, if_true]
      rw [ih (i + 1) (ycoord + 1) (by omega)]
      have hd : lines.drop i = lines[i] :: lines.drop (i + 1) := by
        simp
      rw [hd, draw_rows_for_each]
      simp [List.getD, hi]
    · simp only [hi, if_false]
      have : lines.drop i = [] := List.drop_eq_nil_of_le (by omega)
      simp [this, draw_rows_for_each]

theorem draw_rows_for_each_eq (x : Int) :
    ∀ (lines : List String) (ycoord : Int),
      draw_rows_for_each x lines ycoord
        = (List.range lines.length).flatMap
            (fun i => [Effect.move_cursor (ycoord + i) x, Effect.write (lines.getD i "")]) := by
  intro lines
  induction lines with
  | nil => intro ycoord; simp [draw_rows_for_each]
  | cons line rest ih =>
    intro ycoord
    rw [draw_rows_for_each, ih, List.length_cons, List.range_succ_eq_map]
    simp [List.flatMap_map, add_assoc, add_comm (1 : ℤ)]


theorem draw_rows_terminal (x : Int) :
    ∀ (lines : List String) (ycoord : Int),
      (draw_rows_for_each x lines ycoord).filter Effect.isTerminalOp
        = draw_rows_for_each x lines ycoord := by
  intro lines
  induction lines with
  | nil => intro ycoord; simp [draw_rows_for_each]
  | cons line rest ih =>
    intro ycoord
    simp [draw_rows_for_each, Effect.isTerminalOp, ih]

theorem draw_rows_held (x : Int) :
    ∀ (lines : List String) (ycoord : Int) (tail : List Effect),
      heldUnderLock true (draw_rows_for_each x lines ycoord ++ tail)
        = draw_rows_for_each x lines ycoord ++ heldUnderLock true tail := by
  intro lines
  induction lines with
  | nil => intro ycoord tail; simp [draw_rows_for_each]
  | cons line rest ih =>
    intro ycoord tail
    simp [draw_rows_for_each, heldUnderLock, ih]

theorem cv_flip_both_pixel (m : Mat) (hwf : m.wf) (r c : Nat) (hr : r < m.rows)
    (hc : c < m.cols) :
    (cv_flip m (-1)).pixel r c = m.pixel (m.rows - 1 - r) (m.cols - 1 - c) ∧
    ((cv_flip m (-1)).pixel r c).isSome = true := by
  obtain ⟨hlen, hrow⟩ := hwf
  have hr' : m.rows - 1 - r < m.data.length := by omega
  have hflip : (cv_flip m (-1)).data = (m.data.map List.reverse).reverse := by
    simp [cv_flip]
  unfold Mat.pixel
  rw [hflip, List.getElem?_reverse (by simpa [hlen] using hr), List.getElem?_map,
    List.length_map, hlen, List.getElem?_eq_getElem hr']
  have hcols := (hrow _ (List.getElem_mem hr')).1
  simp only [Option.map_some']
  rw [List.getElem?_reverse (by omega), hcols]
  refine ⟨rfl, ?_⟩
  rw [List.getElem?_eq_getElem (by omega)]
  rfl

theorem cv_flip_wf (m : Mat) (code : Int) (hwf : m.wf) : (cv_flip m code).wf := by
  obtain ⟨hlen, hrow⟩ := hwf
  unfold cv_flip
  split_ifs
  · refine ⟨by simpa using hlen, ?_⟩
    intro row hmem
    exact hrow row (by simpa using hmem)
  · refine ⟨by simpa using hlen, ?_⟩
    intro row hmem
    simp only [List.mem_map] at hmem
    obtain ⟨row0, h0, rfl⟩ := hmem
    refine ⟨by simpa using (hrow row0 h0).1, ?_⟩
    intro px hpx
    exact (hrow row0 h0).2 px (by simpa using hpx)
  · refine ⟨by simpa using hlen, ?_⟩
    intro row hmem
    simp only [List.mem_reverse, List.mem_map] at hmem
    obtain ⟨row0, h0, rfl⟩ := hmem
    refine ⟨by simpa using (hrow row0 h0).1, ?_⟩
    intro px hpx
    exact (hrow row0 h0).2 px (by simpa using hpx)

theorem cv_transpose_wf (m : Mat) (hwf : m.wf) : (cv_transpose m).wf := by
  obtain ⟨hlen, hrow⟩ := hwf
  unfold cv_transpose
  refine ⟨by simp, ?_⟩
  intro col hmem
  simp only [List.mem_map, List.mem_range] at hmem
  obtain ⟨c, hc, rfl⟩ := hmem
  refine ⟨by simpa using hlen, ?_⟩
  intro px hpx
  simp only [List.mem_map] at hpx
  obtain ⟨row, hr, rfl⟩ := hpx
  have hcl := (hrow row hr).1
  have hc' : c < row.length := by omega
  apply (hrow row hr).2
  rw [List.getD_eq_getElem _ _ hc']
  exact List.getElem_mem hc'

theorem cv_flip_header (m : Mat) (code : Int) :
    (cv_flip m code).rows = m.rows ∧ (cv_flip m code).cols = m.cols ∧
    (cv_flip m code).chans = m.chans ∧ (cv_flip m code).depth = m.depth := by
  unfold cv_flip
  split_ifs <;> simp


theorem tmod_two_nat (n : ℕ) : (n : ℤ).tmod 2 = ((n % 2 : ℕ) : ℤ) := by
  rw [Int.tmod_eq_emod (by positivity) (by norm_num)]
  norm_cast

theorem resize_image_wayland_even (env : Env) (s : OpencvImage) (hcache : s.in_cache = false)
    (hns : (env.get_new_sizes s.max_width s.max_height s.dims.scaler s.width s.height).1 ≤ 0 ∧
      (env.get_new_sizes s.max_width s.max_height s.dims.scaler s.width s.height).2 ≤ 0)
    (hout : s.flags.output = "wayland") (hw : 2 ≤ s.image.cols) (hh : 2 ≤ s.image.rows) :
    ∃ s1, resize_image env s = some s1 ∧
      s1.image.cols % 2 = 0 ∧ s1.image.rows % 2 = 0 ∧
      s1.image.cols ≤ s.image.cols ∧ s.image.cols ≤ s1.image.cols + 1 ∧
      s1.image.rows ≤ s.image.rows ∧ s.image.rows ≤ s1.image.rows + 1 ∧
      (s.image.cols % 2 = 0 → s.image.rows % 2 = 0 → s1 = s) := by
  unfold resize_image
  simp only [OpencvImage.width, OpencvImage.height] at hns ⊢
  simp only [hcache, Bool.false_eq_true, if_false, hns, and_self, if_true, hout, tmod_two_nat]
  by_cases hpar : s.image.cols % 2 = 0 ∧ s.image.rows % 2 = 0
  · refine ⟨s, ?_, hpar.1, hpar.2, le_refl _, by omega, le_refl _, by omega, fun _ _ => rfl⟩
    simp [hpar.1, hpar.2]
  · have hne : ¬ (s.image.rows = 0 ∨ s.image.cols = 0) := by omega
    have hcond : ((s.image.cols % 2 : ℕ) : ℤ) ≠ 0 ∨ ((s.image.rows % 2 : ℕ) : ℤ) ≠ 0 := by
      omega
    have hwpos : ¬ ((s.image.cols : ℤ) - ((s.image.cols % 2 : ℕ) : ℤ) ≤ 0) := by omega
    have hhpos : ¬ ((s.image.rows : ℤ) - ((s.image.rows % 2 : ℕ) : ℤ) ≤ 0) := by omega
    simp only [hcond, if_true, resize_image_helper, cv_resize,
      Mat.empty, Bool.or_eq_true, beq_iff_eq, hne, hwpos, hhpos, or_self, if_false,
      Option.map_some']
    refine ⟨_, rfl, ?_, ?_, ?_, ?_, ?_, ?_, ?_⟩ <;> dsimp only <;> omega

theorem resize_image_dims (env : Env) (s s1 : OpencvImage) (hres : resize_image env s = some s1) :
    s1.dims = s.dims ∧ s1.flags = s.flags := by
  unfold resize_image at hres
  simp only [resize_image_helper] at hres
  split_ifs at hres
  all_goals first
    | (simp only [Option.some.injEq] at hres; subst hres; exact ⟨rfl, rfl⟩)
    | (simp only [Option.map_eq_some'] at hres
       obtain ⟨m, _, rfl⟩ := hres
       exact ⟨rfl, rfl⟩)

theorem convert_swap_again (output : String) (image : Mat)
    (ho : output = "kitty" ∨ output = "sixel")
    (hr : 1 ≤ image.rows) (hc : 1 ≤ image.cols)
    (hch : image.chans = 1 ∨ image.chans = 3 ∨ image.chans = 4) :
    ∃ out, convert_colorspace output image = some out ∧
      convert_colorspace output out
        = some (out.mapPixels (RGB2RGB out.chans out.chans true out.depth.alphaMax) out.chans) := by
  have he := Mat.not_empty image hr hc
  rcases ho with rfl | rfl
  · rcases hch with h | h | h <;>
    simp [convert_colorspace, kitty_not_trifecta, h, cvtColor, Mat.empty, he,
      cvtColorGray2BGR, cvtColorBGR2BGR, Mat.mapPixels, Mat.channels, bind, Option.bind]
  · rcases hch with h | h | h <;>
    simp [convert_colorspace, sixel_not_trifecta, sixel_ne_kitty, h, cvtColor, Mat.empty, he,
      cvtColorGray2BGR, cvtColorBGR2BGR, Mat.mapPixels, Mat.channels, bind, Option.bind]

theorem swap_swap_eq_iff (c d : ℕ) (alpha : ℕ) (hd : d = 3 ∨ d = 4) (px : List ℕ) :
    RGB2RGB d d true alpha (RGB2RGB c d true alpha px) = RGB2RGB c d true alpha px
      ↔ px.getD 0 0 = px.getD 2 0 := by
  rcases hd with rfl | rfl
  · simp only [RGB2RGB, if_true]
    simp
    intro h
    exact h.symm
  · simp only [RGB2RGB, if_true]
    simp
    intro h
    exact h.symm

theorem mapPixels_swap_eq_iff (image : Mat) (c d : ℕ) (alpha : ℕ) (hd : d = 3 ∨ d = 4) :
    (image.mapPixels (RGB2RGB c d true alpha) d).mapPixels (RGB2RGB d d true alpha) d
        = image.mapPixels (RGB2RGB c d true alpha) d
      ↔ ∀ row ∈ image.data, ∀ px ∈ row, px.getD 0 0 = px.getD 2 0 := by
  simp only [Mat.mapPixels, Mat.mk.injEq, true_and, List.map_map, List.map_inj_left,
    Function.comp_apply]
  constructor
  · intro h row hrow px hpx
    exact (swap_swap_eq_iff c d alpha hd px).mp (h row hrow px hpx)
  · intro h row hrow px hpx
    exact (swap_swap_eq_iff c d alpha hd px).mpr (h row hrow px hpx)

theorem convert_rgb_first (output : String) (image : Mat)
    (ho : output = "kitty" ∨ output = "sixel")
    (hr : 1 ≤ image.rows) (hc : 1 ≤ image.cols)
    (hch : image.chans = 3 ∨ image.chans = 4) :
    ∃ d, (d = 3 ∨ d = 4) ∧
      convert_colorspace output image
        = some (image.mapPixels (RGB2RGB image.chans d true image.depth.alphaMax) d) := by
  have he := Mat.not_empty image hr hc
  rcases ho with rfl | rfl
  · rcases hch with h | h
    · refine ⟨3, Or.inl rfl, ?_⟩
      simp [convert_colorspace, kitty_not_trifecta, h, cvtColor, Mat.empty, he,
        cvtColorGray2BGR, cvtColorBGR2BGR, Mat.mapPixels, Mat.channels, bind, Option.bind]
    · refine ⟨4, Or.inr rfl, ?_⟩
      simp [convert_colorspace, kitty_not_trifecta, h, cvtColor, Mat.empty, he,
        cvtColorGray2BGR, cvtColorBGR2BGR, Mat.mapPixels, Mat.channels, bind, Option.bind]
  · rcases hch with h | h
    · refine ⟨3, Or.inl rfl, ?_⟩
      simp [convert_colorspace, sixel_not_trifecta, sixel_ne_kitty, h, cvtColor, Mat.empty, he,
        cvtColorGray2BGR, cvtColorBGR2BGR, Mat.mapPixels, Mat.channels, bind, Option.bind]
    · refine ⟨3, Or.inl rfl, ?_⟩
      simp [convert_colorspace, sixel_not_trifecta, sixel_ne_kitty, h, cvtColor, Mat.empty, he,
        cvtColorGray2BGR, cvtColorBGR2BGR, Mat.mapPixels, Mat.channels, bind, Option.bind]

theorem convert_gray_idem (output : String) (image : Mat)
    (ho : output = "kitty" ∨ output = "sixel")
    (hr : 1 ≤ image.rows) (hc : 1 ≤ image.cols) (hch : image.chans = 1) :
    ∃ out, convert_colorspace output image = some out ∧
      convert_colorspace output out = some out := by
  have he := Mat.not_empty image hr hc
  rcases ho with rfl | rfl
  · simp [convert_colorspace, kitty_not_trifecta, hch, cvtColor, Mat.empty, he,
      cvtColorGray2BGR, cvtColorBGR2BGR, Mat.mapPixels, Mat.channels, bind, Option.bind]
    intro row _ px _
    simp [RGB2RGB, Gray2RGB]
  · simp [convert_colorspace, sixel_not_trifecta, sixel_ne_kitty, hch, cvtColor, Mat.empty, he,
      cvtColorGray2BGR, cvtColorBGR2BGR, Mat.mapPixels, Mat.channels, bind, Option.bind]
    intro row _ px _
    simp [RGB2RGB, Gray2RGB]

/-! ## The claims -/

/-- C1: for a font cell size (fw, fh) with fw, fh >= 1 and an image pixel size (w, h)
with w, h >= 1 (an `int`, so below 2^31; the font metrics exactly convertible to double),
the constructor of the canvas renderer sets horizontal_cells = ceil(w / fw) and
vertical_cells = ceil(h / fh), the exact integer ceilings, also given by the integer
formula (w + fw - 1) / fw, and both are at least 1. -/
theorem chafa_constructor_cells (image : OpencvImage)
    (hfw : 1 ≤ image.dims.terminal.font_width) (hfh : 1 ≤ image.dims.terminal.font_height)
    (hfw53 : image.dims.terminal.font_width < 2 ^ 53)
    (hfh53 : image.dims.terminal.font_height < 2 ^ 53)
    (hw : 1 ≤ image.image.cols) (hh : 1 ≤ image.image.rows)
    (hw31 : image.image.cols < 2 ^ 31) (hh31 : image.image.rows < 2 ^ 31) :
    (Chafa.new image).horizontal_cells
        = ⌈(image.image.cols : ℚ) / image.dims.terminal.font_width⌉ ∧
    (Chafa.new image).vertical_cells
        = ⌈(image.image.rows : ℚ) / image.dims.terminal.font_height⌉ ∧
    (Chafa.new image).horizontal_cells
        = ((image.image.cols + image.dims.terminal.font_width - 1)
            / image.dims.terminal.font_width : ℕ) ∧
    (Chafa.new image).vertical_cells
        = ((image.image.rows + image.dims.terminal.font_height - 1)
            / image.dims.terminal.font_height : ℕ) ∧
    1 ≤ (Chafa.new image).horizontal_cells ∧ 1 ≤ (Chafa.new image).vertical_cells := by
  have h1 : (Chafa.new image).horizontal_cells
      = ⌈(image.image.cols : ℚ) / image.dims.terminal.font_width⌉ :=
    cells_eq _ _ hfw hfw53 hw31
  have h2 : (Chafa.new image).vertical_cells
      = ⌈(image.image.rows : ℚ) / image.dims.terminal.font_height⌉ :=
    cells_eq _ _ hfh hfh53 hh31
  have p1 : (0 : ℚ) < (image.image.cols : ℚ) / image.dims.terminal.font_width := by
    have a : (0 : ℚ) < image.image.cols := by exact_mod_cast hw
    have b : (0 : ℚ) < image.dims.terminal.font_width := by exact_mod_cast hfw
    positivity
  have p2 : (0 : ℚ) < (image.image.rows : ℚ) / image.dims.terminal.font_height := by
    have a : (0 : ℚ) < image.image.rows := by exact_mod_cast hh
    have b : (0 : ℚ) < image.dims.terminal.font_height := by exact_mod_cast hfh
    positivity
  refine ⟨h1, h2, ?_, ?_, ?_, ?_⟩
  · rw [h1, ceil_div_nat _ _ hfw]
  · rw [h2, ceil_div_nat _ _ hfh]
  · rw [h1]; exact Int.one_le_ceil_iff.mpr p1
  · rw [h2]; exact Int.one_le_ceil_iff.mpr p2

/-- C1 at w = 100, h = 50, fw = 8, fh = 16: the cell grid is 13 by 4. -/
theorem chafa_constructor_cells_witness :
    (Chafa.new sample_x11).horizontal_cells = 13 ∧ (Chafa.new sample_x11).vertical_cells = 4 := by
  have h := chafa_constructor_cells sample_x11 (by decide) (by decide) (by decide) (by decide)
    (by decide) (by decide) (by decide) (by decide)
  refine ⟨?_, ?_⟩
  · rw [h.2.2.1]; decide
  · rw [h.2.2.2.1]; decide

/-- C2: for a non-empty image with source channel count c in {1, 3, 4}, the
colourspace-conversion step of process_image succeeds, keeps rows, columns and depth, and
leaves the channel count of the table: 4 for output x11, chafa and wayland; for kitty 3
when c = 3 and 4 when c = 4 or c = 1; 3 for sixel. -/
theorem convert_colorspace_channels (output : String) (image : Mat)
    (hr : 1 ≤ image.rows) (hc : 1 ≤ image.cols)
    (hch : image.chans = 1 ∨ image.chans = 3 ∨ image.chans = 4) :
    ∃ out, convert_colorspace output image = some out ∧
      out.rows = image.rows ∧ out.cols = image.cols ∧ out.depth = image.depth ∧
      (output = "x11" ∨ output = "chafa" ∨ output = "wayland" → out.chans = 4) ∧
      (output = "kitty" → (image.chans = 3 → out.chans = 3) ∧ (image.chans = 4 → out.chans = 4)
        ∧ (image.chans = 1 → out.chans = 4)) ∧
      (output = "sixel" → out.chans = 3) :=
  convert_colorspace_spec output image hr hc hch

/-- C2 on a single BGR pixel for kitty and a single BGRA pixel for sixel: the results
have 3 channels. -/
theorem convert_colorspace_channels_witness :
    (∃ out, convert_colorspace "kitty" pixel_bgr = some out ∧ out.chans = 3) ∧
    (∃ out, convert_colorspace "sixel" pixel_bgra = some out ∧ out.chans = 3) := by
  constructor
  · obtain ⟨out, h, _, _, _, _, hk, _⟩ :=
      convert_colorspace_channels "kitty" pixel_bgr (by decide) (by decide) (by decide)
    exact ⟨out, h, (hk rfl).1 rfl⟩
  · obtain ⟨out, h, _, _, _, _, _, hs⟩ :=
      convert_colorspace_channels "sixel" pixel_bgra (by decide) (by decide) (by decide)
    exact ⟨out, h, hs rfl⟩

/-- C3: when the resize step leaves a non-empty image with 8-bit samples and 1, 3 or 4
channels, process_image succeeds and the cached size() is pixels times bytes per pixel of
the buffer after conversion, that is width x height x channel count after conversion;
width and height are those left by the resize step.  For output x11 a 3-channel image
gets size width x height x 4, and for output kitty a 4-channel image keeps 4 channels and
the byte size it had before conversion. -/
theorem process_image_size (env : Env) (s s1 : OpencvImage)
    (hres : resize_image env s = some s1)
    (hr : 1 ≤ s1.image.rows) (hc : 1 ≤ s1.image.cols)
    (hch : s1.image.chans = 1 ∨ s1.image.chans = 3 ∨ s1.image.chans = 4)
    (h8 : s1.image.depth = Depth.CV_8U) :
    ∃ s2, process_image env s = some s2 ∧
      s2.image.cols = s1.image.cols ∧ s2.image.rows = s1.image.rows ∧
      s2.size = s2.image.total * s2.image.elemSize ∧
      (s2.size : ℤ) = s2.width * s2.height * s2.channels ∧
      (s1.flags.output = "x11" → s1.image.chans = 3 →
        s2.size = s1.image.cols * s1.image.rows * 4) ∧
      (s1.flags.output = "kitty" → s1.image.chans = 4 →
        s2.channels = 4 ∧ s2.size = s1.image.total * s1.image.elemSize) := by
  obtain ⟨fr, fc, fch, fd⟩ := flipped_header env s1
  obtain ⟨out, hout, orow, ocol, odep, otri, okitty, _⟩ :=
    convert_colorspace_spec s1.flags.output (flipped env s1)
      (by rw [fr]; exact hr) (by rw [fc]; exact hc) (by rw [fch]; exact hch)
  rw [process_image_eq env s s1 hres, hout]
  refine ⟨_, rfl, ?_, ?_, rfl, ?_, ?_, ?_⟩
  · simp [ocol, fc]
  · simp [orow, fr]
  · simp only [OpencvImage.size, OpencvImage.width, OpencvImage.height, OpencvImage.channels,
      Mat.total, Mat.elemSize, Mat.channels, odep, fd, h8, Depth.elemSize1]
    push_cast
    ring
  · intro ho h3
    simp only [OpencvImage.size, Mat.total, Mat.elemSize, odep, fd, h8, Depth.elemSize1,
      otri (Or.inl ho), orow, ocol, fr, fc]
    ring
  · intro ho h4
    have hk := (okitty ho).2.1 (by rw [fch]; exact h4)
    refine ⟨hk, ?_⟩
    simp only [OpencvImage.size, Mat.total, Mat.elemSize, odep, fd, hk, h4, orow, ocol, fr, fc]

/-- C3 on the 100 x 50 three-channel image for output x11 with no resize: the cached size
is 100 * 50 * 4 = 20000. -/
theorem process_image_size_witness :
    ∃ s2, process_image env_noresize sample_x11 = some s2 ∧ s2.size = 20000 := by
  obtain ⟨s2, h, _, _, _, _, hx, _⟩ :=
    process_image_size env_noresize sample_x11 sample_x11 rfl (by decide) (by decide)
      (by decide) rfl
  exact ⟨s2, h, hx rfl rfl⟩

/-- C4 as stated fails: for kitty a second application to a BGRA pixel, and for sixel to a
BGR pixel, swaps the first and third sample again, so the output of the step is not left
unchanged by the step. -/
theorem convert_colorspace_not_idempotent :
    convert_colorspace "kitty" pixel_bgra
        = some { pixel_bgra with data := [[[3, 2, 1, 255]]] } ∧
    convert_colorspace "kitty" { pixel_bgra with data := [[[3, 2, 1, 255]]] }
        = some pixel_bgra ∧
    convert_colorspace "sixel" pixel_bgr = some { pixel_bgr with data := [[[3, 2, 1]]] } ∧
    convert_colorspace "sixel" { pixel_bgr with data := [[[3, 2, 1]]] } = some pixel_bgr ∧
    pixel_bgra ≠ { pixel_bgra with data := [[[3, 2, 1, 255]]] } ∧
    pixel_bgr ≠ { pixel_bgr with data := [[[3, 2, 1]]] } := by
  decide

/-- C4 amended: for output x11, chafa and wayland the colourspace-conversion step is
idempotent: whenever it returns a buffer, applying it to that buffer returns the same
buffer.  For kitty and sixel, on a non-empty image, a second application succeeds, keeps
rows, columns, depth and channel count, and is the blue-red swap of the first output: it
returns the same buffer for every 1-channel source, and for a 3- or 4-channel source it
returns the same buffer exactly when every source pixel has equal first and third
samples. -/
theorem convert_colorspace_second_application (output : String) (image : Mat)
    (hr : 1 ≤ image.rows) (hc : 1 ≤ image.cols)
    (hch : image.chans = 1 ∨ image.chans = 3 ∨ image.chans = 4) :
    (output ∈ bgra_trifecta →
      ∀ img out, convert_colorspace output img = some out →
        convert_colorspace output out = some out) ∧
    ∃ out, convert_colorspace output image = some out ∧
      (output ∈ bgra_trifecta → convert_colorspace output out = some out) ∧
      (output = "kitty" ∨ output = "sixel" →
        ∃ out2, convert_colorspace output out = some out2 ∧
          out2 = out.mapPixels (RGB2RGB out.chans out.chans true out.depth.alphaMax) out.chans ∧
          out2.chans = out.chans ∧ out2.rows = out.rows ∧ out2.cols = out.cols ∧
          out2.depth = out.depth ∧
          (image.chans = 1 → out2 = out) ∧
          (image.chans = 3 ∨ image.chans = 4 →
            (out2 = out ↔ ∀ row ∈ image.data, ∀ px ∈ row, px.getD 0 0 = px.getD 2 0))) := by
  refine ⟨fun ho img out h => convert_trifecta_idem output img out ho h, ?_⟩
  obtain ⟨out, hout, _⟩ := convert_colorspace_spec output image hr hc hch
  refine ⟨out, hout, fun ho => convert_trifecta_idem output image out ho hout, ?_⟩
  intro ho
  obtain ⟨out1, h1, h2⟩ := convert_swap_again output image ho hr hc hch
  rw [hout] at h1
  cases h1
  refine ⟨_, h2, rfl, rfl, rfl, rfl, rfl, ?_, ?_⟩
  · intro hgray
    obtain ⟨out3, h3, h4⟩ := convert_gray_idem output image ho hr hc hgray
    rw [hout] at h3
    cases h3
    rw [h2] at h4
    exact Option.some.inj h4
  · intro hrgb
    obtain ⟨d, hd, h5⟩ := convert_rgb_first output image ho hr hc hrgb
    rw [hout] at h5
    cases h5
    exact mapPixels_swap_eq_iff image image.chans d image.depth.alphaMax hd

/-- C4 amended, on single pixels: for x11 the step adds the alpha channel to a BGR pixel
and a second application changes nothing; for kitty the second application to the output
of the BGRA pixel [1, 2, 3, 255] returns a different buffer; for sixel the second
application to the output of a gray pixel changes nothing. -/
theorem convert_colorspace_second_application_witness :
    (∃ out, convert_colorspace "x11" pixel_bgr = some out ∧
      convert_colorspace "x11" out = some out) ∧
    (∃ out out2, convert_colorspace "kitty" pixel_bgra = some out ∧
      convert_colorspace "kitty" out = some out2 ∧ out2 ≠ out) ∧
    (∃ out, convert_colorspace "sixel" pixel_gray = some out ∧
      convert_colorspace "sixel" out = some out) := by
  refine ⟨?_, ?_, ?_⟩
  · obtain ⟨_, out, h, htri, _⟩ :=
      convert_colorspace_second_application "x11" pixel_bgr (by decide) (by decide) (by decide)
    exact ⟨out, h, htri (by decide)⟩
  · obtain ⟨_, out, h, _, hk⟩ :=
      convert_colorspace_second_application "kitty" pixel_bgra (by decide) (by decide)
        (by decide)
    obtain ⟨out2, h2, _, _, _, _, _, _, hiff⟩ := hk (Or.inl rfl)
    refine ⟨out, out2, h, h2, ?_⟩
    intro heq
    have hpx := (hiff (Or.inr rfl)).mp heq [[1, 2, 3, 255]] (by decide) [1, 2, 3, 255]
      (by decide)
    revert hpx
    decide
  · obtain ⟨_, out, h, _, hk⟩ :=
      convert_colorspace_second_application "sixel" pixel_gray (by decide) (by decide)
        (by decide)
    obtain ⟨out2, h2, _, _, _, _, _, hgray, _⟩ := hk (Or.inr rfl)
    exact ⟨out, h, by rw [h2, hgray rfl]⟩

/-- C5: hide on a hidden window and show on a visible window return the state unchanged
(no request is sent, the flag stays); hence hide after hide and show after show equal a
single call, with the same flag and the same map and unmap requests. -/
theorem window_show_hide_idempotent (w : Window) :
    (w.visible = false → w.hide = w) ∧
    (w.visible = true → w.show = w) ∧
    w.hide.visible = false ∧ w.show.visible = true ∧
    w.hide.hide = w.hide ∧ w.show.show = w.show ∧
    mapRequests w.hide.hide.connection = mapRequests w.hide.connection ∧
    mapRequests w.show.show.connection = mapRequests w.show.connection := by
  have khide : ∀ v : Window, v.visible = false → v.hide = v := by
    intro v hv
    simp [Window.hide, hv]
  have kshow : ∀ v : Window, v.visible = true → v.show = v := by
    intro v hv
    simp [Window.show, hv]
  have hh : w.hide.visible = false := by
    unfold Window.hide
    cases hv : w.visible <;> simp [hv]
  have hs : w.show.visible = true := by
    unfold Window.show
    cases hv : w.visible <;> simp [hv]
  have hhh : w.hide.hide = w.hide := khide _ hh
  have hss : w.show.show = w.show := kshow _ hs
  exact ⟨khide w, kshow w, hh, hs, hhh, hss, by rw [hhh], by rw [hss]⟩

/-- C5 on a hidden and on a visible window: hide, respectively show, changes nothing, and
no unmap, respectively no second map, request is in the log. -/
theorem window_show_hide_idempotent_witness :
    sample_hidden.hide = sample_hidden ∧ sample_visible.show = sample_visible ∧
    mapRequests sample_hidden.hide.connection = [] ∧
    mapRequests sample_visible.show.connection = [XcbRequest.map_window 7] := by
  have h1 := (window_show_hide_idempotent sample_hidden).1 rfl
  have h2 := (window_show_hide_idempotent sample_visible).2.1 rfl
  refine ⟨h1, h2, ?_, ?_⟩
  · rw [h1]; decide
  · rw [h2]; decide

/-- C6 as stated fails: on a 12 x 24 image with font cell 8 x 16 anchored at (10, 5),
process_image leaves the anchor at (10, 5), while cells_wide = ceil(12 / 8) = 2 and
cells_high = ceil(24 / 16) = 2 would shift it by floor(2 / 2) = 1 to (9, 4). -/
theorem process_image_recenter_not_cells :
    ∃ s2, process_image env_noresize sample_centered = some s2 ∧
      s2.dims.x = 10 ∧ s2.dims.y = 5 ∧
      sample_centered.dims.x
        - ⌈(sample_centered.image.cols : ℚ) / sample_centered.dims.terminal.font_width⌉ / 2 = 9 ∧
      sample_centered.dims.y
        - ⌈(sample_centered.image.rows : ℚ) / sample_centered.dims.terminal.font_height⌉ / 2
          = 4 := by
  have hres : resize_image env_noresize sample_centered = some sample_centered := rfl
  obtain ⟨out, hout, _⟩ :=
    convert_colorspace_spec sample_centered.flags.output (flipped env_noresize sample_centered)
      (by decide) (by decide) (by decide)
  obtain ⟨hx, hy⟩ := recenter_spec env_noresize sample_centered rfl (by decide) (by decide)
    (by decide) (by decide) (by decide) (by decide) (by decide) (by decide) (by decide)
    (by decide) (by decide)
  rw [process_image_eq _ _ _ hres, hout]
  refine ⟨_, rfl, ?_, ?_, ?_, ?_⟩
  · show (recenter env_noresize sample_centered).dims.x = 10
    rw [hx]; decide
  · show (recenter env_noresize sample_centered).dims.y = 5
    rw [hy]; decide
  · rw [ceil_div_nat _ _ (by decide)]; decide
  · rw [ceil_div_nat _ _ (by decide)]; decide

/-- C6 amended: when origin-centred placement is requested, for a final image size (w, h)
and a font cell size (fw, fh) with all four >= 1 (w and h being `int`, the font metrics and
the integer type of the anchor fields exactly convertible to double, the image having 1, 3
or 4 channels), and whenever the shifted anchor is a value of the integer type of the
anchor fields, process_image succeeds and changes the anchor by exactly
x := x - floor((w / fw) / 2) and y := y - floor((h / fh) / 2), half of the unrounded cell
footprint, that is x - w / (2 * fw) and y - h / (2 * fh) in integer division. -/
theorem process_image_recenter (env : Env) (s s1 : OpencvImage)
    (hres : resize_image env s = some s1)
    (hoc : s.flags.origin_center = true)
    (hfw : 1 ≤ s.dims.terminal.font_width) (hfh : 1 ≤ s.dims.terminal.font_height)
    (hfw53 : s.dims.terminal.font_width < 2 ^ 53) (hfh53 : s.dims.terminal.font_height < 2 ^ 53)
    (hw : 1 ≤ s1.image.cols) (hh : 1 ≤ s1.image.rows)
    (hw31 : s1.image.cols < 2 ^ 31) (hh31 : s1.image.rows < 2 ^ 31)
    (hT : -2 ^ 53 ≤ env.coord_type.min ∧ env.coord_type.max ≤ 2 ^ 53)
    (hx : env.coord_type.min ≤ s.dims.x ∧ s.dims.x ≤ env.coord_type.max)
    (hy : env.coord_type.min ≤ s.dims.y ∧ s.dims.y ≤ env.coord_type.max)
    (hrx : env.coord_type.min
      ≤ s.dims.x - ((s1.image.cols / (2 * s.dims.terminal.font_width) : ℕ) : ℤ))
    (hry : env.coord_type.min
      ≤ s.dims.y - ((s1.image.rows / (2 * s.dims.terminal.font_height) : ℕ) : ℤ))
    (hch : s1.image.chans = 1 ∨ s1.image.chans = 3 ∨ s1.image.chans = 4) :
    ∃ s2, process_image env s = some s2 ∧
      s2.image.cols = s1.image.cols ∧ s2.image.rows = s1.image.rows ∧
      s2.dims.x = s.dims.x - ⌊(s2.image.cols : ℚ) / s.dims.terminal.font_width / 2⌋ ∧
      s2.dims.y = s.dims.y - ⌊(s2.image.rows : ℚ) / s.dims.terminal.font_height / 2⌋ ∧
      s2.dims.x = s.dims.x - ((s2.image.cols / (2 * s.dims.terminal.font_width) : ℕ) : ℤ) ∧
      s2.dims.y = s.dims.y - ((s2.image.rows / (2 * s.dims.terminal.font_height) : ℕ) : ℤ) ∧
      env.coord_type.min ≤ s2.dims.x ∧ s2.dims.x ≤ env.coord_type.max ∧
      env.coord_type.min ≤ s2.dims.y ∧ s2.dims.y ≤ env.coord_type.max := by
  obtain ⟨hd, hf⟩ := resize_image_dims env s s1 hres
  obtain ⟨fr, fc, fch, fd⟩ := flipped_header env s1
  obtain ⟨out, hout, orow, ocol, _⟩ :=
    convert_colorspace_spec s1.flags.output (flipped env s1)
      (by rw [fr]; exact hh) (by rw [fc]; exact hw) (by rw [fch]; exact hch)
  obtain ⟨rx, ry⟩ := recenter_spec env s1 (by rw [hf]; exact hoc) (by rw [hd]; exact hfw)
    (by rw [hd]; exact hfh) (by rw [hd]; exact hfw53) (by rw [hd]; exact hfh53) hw31 hh31
    hT (by rw [hd]; exact hx) (by rw [hd]; exact hy) (by rw [hd]; exact hrx)
    (by rw [hd]; exact hry)
  rw [hd] at rx ry
  have ecol : out.cols = s1.image.cols := by rw [ocol, fc]
  have erow : out.rows = s1.image.rows := by rw [orow, fr]
  have floorx : ∀ p d : ℕ, ⌊(p : ℚ) / d / 2⌋ = ((p / (2 * d) : ℕ) : ℤ) := by
    intro p d
    have : (p : ℚ) / d / 2 = (p : ℚ) / ((2 * d : ℕ) : ℚ) := by
      push_cast
      rw [div_div, mul_comm]
    rw [this, Rat.floor_natCast_div_natCast]
    norm_cast
  rw [process_image_eq env s s1 hres, hout]
  refine ⟨_, rfl, ecol, erow, ?_, ?_, ?_, ?_, ?_, ?_, ?_, ?_⟩
  · show (recenter env s1).dims.x = _
    rw [rx, floorx]
    simp only [ecol]
  · show (recenter env s1).dims.y = _
    rw [ry, floorx]
    simp only [erow]
  · show (recenter env s1).dims.x = _
    rw [rx]
    simp only [ecol]
  · show (recenter env s1).dims.y = _
    rw [ry]
    simp only [erow]
  · show _ ≤ (recenter env s1).dims.x
    rw [rx]; exact hrx
  · show (recenter env s1).dims.x ≤ _
    rw [rx]
    have h0 : (0 : ℤ) ≤ ((s1.image.cols / (2 * s.dims.terminal.font_width) : ℕ) : ℤ) :=
      Int.natCast_nonneg _
    linarith [hx.2]
  · show _ ≤ (recenter env s1).dims.y
    rw [ry]; exact hry
  · show (recenter env s1).dims.y ≤ _
    rw [ry]
    have h0 : (0 : ℤ) ≤ ((s1.image.rows / (2 * s.dims.terminal.font_height) : ℕ) : ℤ) :=
      Int.natCast_nonneg _
    linarith [hy.2]

/-- C6 amended, on a 100 x 50 image with font cell 8 x 16 anchored at (10, 5): the anchor
moves to (10 - floor(12.5 / 2), 5 - floor(3.125 / 2)) = (4, 4). -/
theorem process_image_recenter_witness :
    ∃ s2, process_image env_noresize sample_centered_100x50 = some s2 ∧
      s2.dims.x = 4 ∧ s2.dims.y = 4 := by
  obtain ⟨s2, h, ec, er, _, _, hx, hy, _⟩ :=
    process_image_recenter env_noresize sample_centered_100x50 sample_centered_100x50 rfl rfl
      (by decide) (by decide) (by decide) (by decide) (by decide) (by decide) (by decide)
      (by decide) (by decide) (by decide) (by decide) (by decide) (by decide) (by decide)
  refine ⟨s2, h, ?_, ?_⟩
  · rw [hx, ec]; decide
  · rw [hy, er]; decide

/-- C7: for a well-formed W x H image, rotate_image with orientation hint 3 yields a W x H
image whose pixel at (row r, column c) is the input pixel at (H-1-r, W-1-c); with hint 6
or 8 it yields a well-formed image with width H and height W; with no hint or any other
hint value the image is returned unchanged.  rotate_image is total: it raises no
error. -/
theorem rotate_image_spec (s : OpencvImage) (hwf : s.image.wf) :
    ((rotate_image (some 3) s).image.cols = s.image.cols ∧
      (rotate_image (some 3) s).image.rows = s.image.rows ∧
      (rotate_image (some 3) s).image.wf ∧
      ∀ r c, r < s.image.rows → c < s.image.cols →
        (rotate_image (some 3) s).image.pixel r c
            = s.image.pixel (s.image.rows - 1 - r) (s.image.cols - 1 - c) ∧
        ((rotate_image (some 3) s).image.pixel r c).isSome = true) ∧
    (∀ value, value = 6 ∨ value = 8 →
      (rotate_image (some value) s).image.cols = s.image.rows ∧
      (rotate_image (some value) s).image.rows = s.image.cols ∧
      (rotate_image (some value) s).image.wf) ∧
    rotate_image none s = s ∧
    (∀ value, value ≠ 3 → value ≠ 6 → value ≠ 8 → rotate_image (some value) s = s) := by
  refine ⟨⟨?_, ?_, ?_, ?_⟩, ?_, rfl, ?_⟩
  · exact (cv_flip_header s.image (-1)).2.1
  · exact (cv_flip_header s.image (-1)).1
  · exact cv_flip_wf s.image (-1) hwf
  · intro r c hr hc
    exact cv_flip_both_pixel s.image hwf r c hr hc
  · intro value hv
    rcases hv with rfl | rfl
    · exact ⟨(cv_flip_header _ 1).2.1, (cv_flip_header _ 1).1,
        cv_flip_wf _ 1 (cv_transpose_wf s.image hwf)⟩
    · exact ⟨(cv_flip_header _ 0).2.1, (cv_flip_header _ 0).1,
        cv_flip_wf _ 0 (cv_transpose_wf s.image hwf)⟩
  · intro value h3 h6 h8
    simp [rotate_image, h3, h6, h8]

/-- C7 on the 3 x 2 image with rows 1 2 3 and 4 5 6: hint 3 gives rows 6 5 4 and 3 2 1,
hints 6 and 8 give images 2 wide and 3 high, hint 1 changes nothing. -/
theorem rotate_image_spec_witness :
    (rotate_image (some 3) sample_3x2).image.data = [[[6], [5], [4]], [[3], [2], [1]]] ∧
    (rotate_image (some 3) sample_3x2).image.pixel 0 0 = sample_3x2.image.pixel 1 2 ∧
    (rotate_image (some 6) sample_3x2).image.cols = 2 ∧
    (rotate_image (some 6) sample_3x2).image.rows = 3 ∧
    (rotate_image (some 8) sample_3x2).image.cols = 2 ∧
    (rotate_image (some 8) sample_3x2).image.rows = 3 ∧
    rotate_image (some 1) sample_3x2 = sample_3x2 := by
  have h := rotate_image_spec sample_3x2 (by decide)
  refine ⟨by decide, (h.1.2.2.2 0 0 (by decide) (by decide)).1, (h.2.1 6 (Or.inl rfl)).1,
    (h.2.1 6 (Or.inl rfl)).2.1, (h.2.1 8 (Or.inr rfl)).1, (h.2.1 8 (Or.inr rfl)).2.1,
    h.2.2.2 1 (by decide) (by decide) (by decide)⟩

/-- C8: for a draw whose rendering yields the rows `lines` (n of them), in either build,
the terminal operations emitted by Chafa::draw are exactly: save cursor; then for
i = 0, ..., n-1 in increasing order, move cursor to (y + i, x) followed by writing row i;
then flush; then restore cursor - with (x, y) the anchor stored by the renderer.  All of
them are issued while the output lock is held, and draw leaves the anchor and the
cell-grid fields unchanged. -/
theorem chafa_draw_sequence (CHAFA_VERSION_1_14 : Bool) (lines : List String) (c : Chafa) :
    ((Chafa.draw CHAFA_VERSION_1_14 lines c).2.filter Effect.isTerminalOp
      = [Effect.save_cursor_position]
        ++ (List.range lines.length).flatMap
            (fun i => [Effect.move_cursor (c.y + i) c.x, Effect.write (lines.getD i "")])
        ++ [Effect.flush, Effect.restore_cursor_position]) ∧
    (heldUnderLock false (Chafa.draw CHAFA_VERSION_1_14 lines c).2).filter Effect.isTerminalOp
      = (Chafa.draw CHAFA_VERSION_1_14 lines c).2.filter Effect.isTerminalOp ∧
    (Chafa.draw CHAFA_VERSION_1_14 lines c).1.x = c.x ∧
    (Chafa.draw CHAFA_VERSION_1_14 lines c).1.y = c.y ∧
    (Chafa.draw CHAFA_VERSION_1_14 lines c).1.horizontal_cells = c.horizontal_cells ∧
    (Chafa.draw CHAFA_VERSION_1_14 lines c).1.vertical_cells = c.vertical_cells := by
  have hloop := draw_rows_loop_eq lines c.x lines.length 0 c.y (by omega)
  rw [List.drop_zero] at hloop
  have hrows := draw_rows_for_each_eq c.x lines c.y
  have hterm := draw_rows_terminal c.x lines c.y
  cases CHAFA_VERSION_1_14
  · refine ⟨?_, ?_, rfl, rfl, rfl, rfl⟩
    · simp [Chafa.draw, Effect.isTerminalOp, hterm]
      simpa using hrows
    · simp [Chafa.draw, Effect.isTerminalOp, heldUnderLock, draw_rows_held, hterm]
  · refine ⟨?_, ?_, rfl, rfl, rfl, rfl⟩
    · simp [Chafa.draw, Effect.isTerminalOp, hloop, hterm]
      simpa using hrows
    · simp [Chafa.draw, Effect.isTerminalOp, heldUnderLock, draw_rows_held, hloop, hterm]

/-- C9 fails on the code: for a 1 x 1 image with output wayland on the no-resize path,
resize_image asks for a resize to (1 - 1 % 2, 1 - 1 % 2) = (0, 0), which `cv::resize`
rejects, so resize_image and with it process_image fail. -/
theorem resize_image_wayland_1x1_fails :
    resize_image env_noresize sample_wayland_1x1 = none ∧
    process_image env_noresize sample_wayland_1x1 = none ∧
    (sample_wayland_1x1.width - sample_wayland_1x1.width.tmod 2,
      sample_wayland_1x1.height - sample_wayland_1x1.height.tmod 2) = (0, 0) := by
  decide

/-- C10 as stated fails: in the teardown of the renderer built for the 100 x 50 image, the
first four effects release the canvas, the canvas configuration, the symbol map and the
terminal info; the lock and the erase only follow. -/
theorem chafa_destroy_releases_first :
    eraseBeforeRelease (Chafa.destroy (Chafa.new sample_x11)) = false ∧
    (Chafa.destroy (Chafa.new sample_x11)).take 5
      = [Effect.chafa_canvas_unref, Effect.chafa_canvas_config_unref,
          Effect.chafa_symbol_map_unref, Effect.chafa_term_info_unref, Effect.lock] ∧
    ((Chafa.destroy (Chafa.new sample_x11)).drop 5).map Effect.isErase = [true, false] := by
  refine ⟨rfl, rfl, rfl⟩

/-- C10 amended: the teardown of the canvas renderer first releases the canvas, the canvas
configuration, the symbol map and the terminal info, and then, with the shared output
lock held, issues as its only terminal operation the erase of the cell rectangle
(x, y, horizontal_cells, vertical_cells) computed at construction, x and y being the
anchor plus one; draws made in between do not change the rectangle. -/
theorem chafa_destroy_sequence (image : OpencvImage) (CHAFA_VERSION_1_14 : Bool)
    (lines : List String) :
    Chafa.destroy (Chafa.new image)
      = [Effect.chafa_canvas_unref, Effect.chafa_canvas_config_unref,
          Effect.chafa_symbol_map_unref, Effect.chafa_term_info_unref, Effect.lock,
          Effect.clear_terminal_area (image.dims.x + 1) (image.dims.y + 1)
            (Chafa.new image).horizontal_cells (Chafa.new image).vertical_cells,
          Effect.unlock] ∧
    heldUnderLock false (Chafa.destroy (Chafa.new image))
      = [Effect.clear_terminal_area (image.dims.x + 1) (image.dims.y + 1)
          (Chafa.new image).horizontal_cells (Chafa.new image).vertical_cells] ∧
    (Chafa.destroy (Chafa.new image)).filter Effect.isTerminalOp
      = heldUnderLock false (Chafa.destroy (Chafa.new image)) ∧
    Chafa.destroy (Chafa.draw CHAFA_VERSION_1_14 lines (Chafa.new image)).1
      = Chafa.destroy (Chafa.new image) := by
  refine ⟨rfl, rfl, rfl, ?_⟩
  cases CHAFA_VERSION_1_14 <;> rfl

end Ueberzugpp
